import Mathlib

/-!
Shallow embedding of the OSPFv3 message codec from mdlayher/ospf3
(message.go), together with proofs about its parse/marshal behaviour.

Modelling conventions:
- Go byte slices are lists of naturals; a real buffer satisfies `ByteOk`
  (every element is an octet).
- Go machine integers are naturals; every Go integer conversion
  (for example the conversion of a packet length to a 16-bit field) is an
  explicit `% 2 ^ w` at the place where the source performs it.
- Go time.Duration values are naturals counting nanoseconds.  All duration
  values this codec reads from the wire are nonnegative whole numbers of
  seconds, so the nonnegative model is adequate; Duration.Round(time.Second)
  rounds half away from zero, which on naturals is `roundSeconds` below.
- Fallible Go functions return `Except Err`; the two sentinel error values
  errMarshal and errParse of message.go become the constructors
  `Err.errMarshal` and `Err.errParse`, and the distinct, unwrapped
  "parsing not implemented message type" error of ParseMessage becomes
  `Err.notImplemented`.
-/

namespace Ospf3

/-- Go byte slices, modelled as lists of naturals. -/
abbrev Bytes := List Nat

/-- Every element of a real Go `[]byte` value is an octet. -/
abbrev ByteOk (b : Bytes) : Prop := ∀ x ∈ b, x < 256

/-- Go slice expression `b[i:j]`. -/
def slice (b : Bytes) (i j : Nat) : Bytes := (b.drop i).take (j - i)

/-- binary.BigEndian.Uint16: reads the first two bytes, big endian. -/
def getUint16 (b : Bytes) : Nat := b.getD 0 0 * 2 ^ 8 + b.getD 1 0

/-- binary.BigEndian.Uint32: reads the first four bytes, big endian. -/
def getUint32 (b : Bytes) : Nat :=
  b.getD 0 0 * 2 ^ 24 + b.getD 1 0 * 2 ^ 16 + b.getD 2 0 * 2 ^ 8 + b.getD 3 0

/-- binary.BigEndian.PutUint16: the two big-endian bytes of a uint16 value. -/
def putUint16 (v : Nat) : Bytes := [v / 2 ^ 8 % 256, v % 256]

/-- binary.BigEndian.PutUint32: the four big-endian bytes of a uint32 value. -/
def putUint32 (v : Nat) : Bytes :=
  [v / 2 ^ 24 % 256, v / 2 ^ 16 % 256, v / 2 ^ 8 % 256, v % 256]

/-- Constant `version = 3`: the OSPF version supported by the library. -/
def version : Nat := 3

/-- Constant `headerLen = 16`. -/
def headerLen : Nat := 16

/-- Constant `lsaLen = 12`. -/
def lsaLen : Nat := 12

/-- Constant `lsaHeaderLen = 20`. -/
def lsaHeaderLen : Nat := 20

/-- Constant `helloLen = 20` (no trailing array of neighbor IDs). -/
def helloLen : Nat := 20

/-- Constant `ddLen = 12` (no trailing array of LSA headers). -/
def ddLen : Nat := 12

/-- Packet type constant `hello = 1`. -/
def helloType : Nat := 1

/-- Packet type constant `databaseDescription = 2`. -/
def databaseDescriptionType : Nat := 2

/-- Packet type constant `linkStateRequest = 3`. -/
def linkStateRequestType : Nat := 3

/-- Packet type constant `linkStateUpdate = 4`. -/
def linkStateUpdateType : Nat := 4

/-- Packet type constant `linkStateAcknowledgement = 5`. -/
def linkStateAcknowledgementType : Nat := 5

/-- Error categories of message.go: the sentinel errors errMarshal and
errParse, plus the "parsing not implemented message type" error of
ParseMessage, which wraps neither sentinel. -/
inductive Err where
  | errMarshal : Err
  | errParse : Err
  | notImplemented : Nat → Err
deriving DecidableEq

/-- Decidable equality of fallible results, to let concrete parse and
marshal runs be checked by evaluation. -/
instance {ε α : Type} [DecidableEq ε] [DecidableEq α] : DecidableEq (Except ε α)
  | .error e, .error f =>
    if h : e = f then .isTrue (by rw [h]) else .isFalse (by simp [h])
  | .error _, .ok _ => .isFalse (by simp)
  | .ok _, .error _ => .isFalse (by simp)
  | .ok a, .ok b =>
    if h : a = b then .isTrue (by rw [h]) else .isFalse (by simp [h])

/-- Nanoseconds in time.Second. -/
def second : Nat := 1000000000

/-- Duration.Round(time.Second) divided by time.Second: the number of whole
seconds in d, rounded to nearest with halves rounded up (Go rounds half away
from zero; durations here are nonnegative). -/
def roundSeconds (d : Nat) : Nat :=
  if 2 * (d % second) < second then d / second else d / second + 1

/-- uint16Seconds: interprets big endian uint16 bytes as a number of seconds. -/
def uint16Seconds (b : Bytes) : Nat := getUint16 b * second

/-- putUint16Seconds: stores d as big endian uint16 bytes, rounded to the
nearest whole second.  The `% 2 ^ 16` is the uint16 conversion performed by
the source; it only matters for durations of 2^16 seconds or more. -/
def putUint16Seconds (d : Nat) : Bytes := putUint16 (roundSeconds d % 2 ^ 16)

/-- An ID is a four byte identifier (Go `[4]byte`). -/
structure ID where
  b0 : Nat
  b1 : Nat
  b2 : Nat
  b3 : Nat
deriving DecidableEq

/-- The four bytes of an ID, as copied into a buffer by `copy(b, id[:])`. -/
def ID.bytes (id : ID) : Bytes := [id.b0, id.b1, id.b2, id.b3]

/-- Reading an ID out of four bytes of a buffer, `copy(id[:], b)`. -/
def parseID (b : Bytes) : ID := ⟨b.getD 0 0, b.getD 1 0, b.getD 2 0, b.getD 3 0⟩

/-- Well-formedness of an ID value: each component is an octet, as the Go
type `[4]byte` guarantees. -/
abbrev ID.WF (id : ID) : Prop :=
  id.b0 < 256 ∧ id.b1 < 256 ∧ id.b2 < 256 ∧ id.b3 < 256

/-- Function `options`: parses Options as a uint32 and masks off the high
8 bits to interpret b as a 24-bit Options bitmask. -/
def options (b : Bytes) : Nat := getUint32 b &&& 0xffffff

/-- Method `Options.valid`: the bitmask is valid iff it only has bits set in
the lower 24 bits of the uint32. -/
def Options.valid (o : Nat) : Bool := o &&& 0xff000000 == 0

/-- The logical OSPFv3 packet Header: only the fields which are not
calculated programmatically.  Version, packet type and packet length are
set by marshaling and consumed by parsing. -/
structure Header where
  RouterID : ID
  AreaID : ID
  Checksum : Nat
  InstanceID : Nat
deriving DecidableEq

/-- Well-formedness of a Header value per its Go field types. -/
abbrev Header.WF (h : Header) : Prop :=
  h.RouterID.WF ∧ h.AreaID.WF ∧ h.Checksum < 2 ^ 16 ∧ h.InstanceID < 2 ^ 8

/-- Header.marshal: packs a Header into its 16 bytes, also writing the
packet type and the (already uint16-converted) packet length; byte 15 is
reserved and keeps the zero of the freshly allocated buffer. -/
def Header.marshalBytes (h : Header) (ptyp : Nat) (plen : Nat) : Bytes :=
  [version, ptyp] ++ putUint16 plen ++ h.RouterID.bytes ++ h.AreaID.bytes ++
    putUint16 h.Checksum ++ [h.InstanceID, 0]

/-- parseHeader: parses an OSPFv3 Header, the packet type byte and the
declared end offset of the packet from bytes.  All failures wrap the
errParse sentinel. -/
def parseHeader (b : Bytes) : Except Err (Header × Nat × Nat) :=
  if b.length < headerLen then .error .errParse
  else if b.getD 0 0 ≠ version then .error .errParse
  else
    let h : Header :=
      { RouterID := parseID (slice b 4 8)
        AreaID := parseID (slice b 8 12)
        Checksum := getUint16 (slice b 12 14)
        InstanceID := b.getD 14 0 }
    let plen := getUint16 (slice b 2 4)
    if plen < headerLen then .error .errParse
    else if b.length < plen then .error .errParse
    else .ok (h, b.getD 1 0, plen)

/-- An LSA (Go struct LSA).  The Go field `Type` (of Go type LSType, a
uint16) is called `lsType` here because `Type` is reserved in Lean. -/
structure LSA where
  lsType : Nat
  LinkStateID : ID
  AdvertisingRouter : ID
deriving DecidableEq

/-- Well-formedness of an LSA value per its Go field types. -/
abbrev LSA.WF (l : LSA) : Prop :=
  l.lsType < 2 ^ 16 ∧ l.LinkStateID.WF ∧ l.AdvertisingRouter.WF

/-- LSA.marshal: packs an LSA into bytes (2 type bytes and two IDs). -/
def LSA.marshalBytes (l : LSA) : Bytes :=
  putUint16 l.lsType ++ l.LinkStateID.bytes ++ l.AdvertisingRouter.bytes

/-- parseLSA: unpacks an LSA from a byte slice. -/
def parseLSA (b : Bytes) : LSA :=
  { lsType := getUint16 (slice b 0 2)
    LinkStateID := parseID (slice b 2 6)
    AdvertisingRouter := parseID (slice b 6 10) }

/-- Method LSType.LSAHandling, verbatim from the source: `(t & 0xf000) != 0`.
Its doc comment says it returns the value of the U-bit in the LSType. -/
def LSType.LSAHandling (t : Nat) : Bool := t &&& 0xf000 != 0

/-- Method LSType.FloodingScope: the flooding scope value stored in the S1
and S2 bits of the LSType, `(t & 0x6000) >> 13`. -/
def LSType.FloodingScope (t : Nat) : Nat := (t &&& 0x6000) >>> 13

/-- An LSAHeader (Go struct LSAHeader).  Age is a time.Duration in
nanoseconds. -/
structure LSAHeader where
  Age : Nat
  LSA : LSA
  SequenceNumber : Nat
  Checksum : Nat
  Length : Nat
deriving DecidableEq

/-- Well-formedness of an LSAHeader value per its Go field types. -/
abbrev LSAHeader.WF (lh : LSAHeader) : Prop :=
  lh.LSA.WF ∧ lh.SequenceNumber < 2 ^ 32 ∧ lh.Checksum < 2 ^ 16 ∧ lh.Length < 2 ^ 16

/-- LSAHeader.marshal: age seconds, the LSA at offset 2, then sequence
number, checksum and length. -/
def LSAHeader.marshalBytes (lh : LSAHeader) : Bytes :=
  putUint16Seconds lh.Age ++ lh.LSA.marshalBytes ++ putUint32 lh.SequenceNumber ++
    putUint16 lh.Checksum ++ putUint16 lh.Length

/-- parseLSAHeader: unpacks an LSAHeader from a byte slice. -/
def parseLSAHeader (b : Bytes) : LSAHeader :=
  { Age := uint16Seconds (slice b 0 2)
    LSA := parseLSA (slice b 2 12)
    SequenceNumber := getUint32 (slice b 12 16)
    Checksum := getUint16 (slice b 16 18)
    Length := getUint16 (slice b 18 20) }

/-- A Hello message (Go struct Hello).  The two interval fields are
time.Duration nanosecond counts. -/
structure Hello where
  Header : Header
  InterfaceID : Nat
  RouterPriority : Nat
  Options : Nat
  HelloInterval : Nat
  RouterDeadInterval : Nat
  DesignatedRouterID : ID
  BackupDesignatedRouterID : ID
  NeighborIDs : List ID
deriving DecidableEq

/-- Well-formedness of a Hello value per its Go field types. -/
abbrev Hello.WF (h : Hello) : Prop :=
  h.Header.WF ∧ h.InterfaceID < 2 ^ 32 ∧ h.RouterPriority < 2 ^ 8 ∧
    h.Options < 2 ^ 32 ∧ h.DesignatedRouterID.WF ∧
    h.BackupDesignatedRouterID.WF ∧ ∀ id ∈ h.NeighborIDs, id.WF

/-- Hello.len: fixed Header and Hello, plus 4 bytes per neighbor ID. -/
def Hello.len (h : Hello) : Nat := headerLen + helloLen + 4 * h.NeighborIDs.length

/-- The trailing array of neighbor IDs, each packed into 4 adjacent bytes. -/
def idsBytes (ids : List ID) : Bytes := (ids.map ID.bytes).flatten

/-- Hello.marshal.  Fails (wrapping errMarshal) when the Options bitmask is
not valid; otherwise produces the header (with packet type hello and the
uint16 conversion of the computed length) followed by the fixed body and the
neighbor IDs.  Go packs RouterPriority and the 24-bit Options into one
uint32 as `uint32(h.RouterPriority)<<24 | uint32(h.Options)`. -/
def Hello.marshalBytes (h : Hello) : Except Err Bytes :=
  if ¬ Options.valid h.Options then .error .errMarshal
  else .ok (Header.marshalBytes h.Header helloType (h.len % 2 ^ 16) ++
    putUint32 h.InterfaceID ++
    putUint32 (h.RouterPriority <<< 24 ||| h.Options) ++
    putUint16Seconds h.HelloInterval ++
    putUint16Seconds h.RouterDeadInterval ++
    h.DesignatedRouterID.bytes ++
    h.BackupDesignatedRouterID.bytes ++
    idsBytes h.NeighborIDs)

/-- The loop of Hello.unmarshal over the trailing neighbor IDs: one ID per
4 bytes.  The caller has checked that the length is a multiple of 4, so the
leftover-shorter-than-4-bytes case never arises there. -/
def parseIDs : Bytes → List ID
  | b0 :: b1 :: b2 :: b3 :: rest => parseID [b0, b1, b2, b3] :: parseIDs rest
  | _ => []

/-- Hello.unmarshal.  The Header was filled in by ParseMessage when it
constructed the value, so it is threaded through here; the body bytes b
exclude the 16-byte packet header. -/
def Hello.unmarshalBody (hdr : Ospf3.Header) (b : Bytes) : Except Err Hello :=
  if b.length < helloLen then .error .errParse
  else if b.length % 4 ≠ 0 then .error .errParse
  else .ok
    { Header := hdr
      InterfaceID := getUint32 (slice b 0 4)
      RouterPriority := b.getD 4 0
      Options := options (slice b 4 8)
      HelloInterval := uint16Seconds (slice b 8 10)
      RouterDeadInterval := uint16Seconds (slice b 10 12)
      DesignatedRouterID := parseID (slice b 12 16)
      BackupDesignatedRouterID := parseID (slice b 16 20)
      NeighborIDs := parseIDs (b.drop helloLen) }

/-- A DatabaseDescription message (Go struct DatabaseDescription). -/
structure DatabaseDescription where
  Header : Header
  Options : Nat
  InterfaceMTU : Nat
  Flags : Nat
  SequenceNumber : Nat
  LSAs : List LSAHeader
deriving DecidableEq

/-- Well-formedness of a DatabaseDescription per its Go field types
(Flags is a DDFlags, a uint16). -/
abbrev DatabaseDescription.WF (dd : DatabaseDescription) : Prop :=
  dd.Header.WF ∧ dd.Options < 2 ^ 32 ∧ dd.InterfaceMTU < 2 ^ 16 ∧
    dd.Flags < 2 ^ 16 ∧ dd.SequenceNumber < 2 ^ 32 ∧ ∀ lh ∈ dd.LSAs, lh.WF

/-- DatabaseDescription.len: fixed Header and DatabaseDescription, plus
20 bytes per LSA header. -/
def DatabaseDescription.len (dd : DatabaseDescription) : Nat :=
  headerLen + ddLen + lsaHeaderLen * dd.LSAs.length

/-- The trailing array of LSA headers, each packed into 20 adjacent bytes. -/
def lsaHeadersBytes (ls : List LSAHeader) : Bytes :=
  (ls.map LSAHeader.marshalBytes).flatten

/-- DatabaseDescription.marshal.  Fails when the Options bitmask is not
valid.  Byte 16 carries the zero high byte of the valid 32-bit Options
write, byte 22 is reserved, byte 23 is `byte(dd.Flags)` (the uint8
conversion of the uint16 flags). -/
def DatabaseDescription.marshalBytes (dd : DatabaseDescription) : Except Err Bytes :=
  if ¬ Options.valid dd.Options then .error .errMarshal
  else .ok (Header.marshalBytes dd.Header databaseDescriptionType (dd.len % 2 ^ 16) ++
    putUint32 dd.Options ++
    putUint16 dd.InterfaceMTU ++
    [0, dd.Flags % 2 ^ 8] ++
    putUint32 dd.SequenceNumber ++
    lsaHeadersBytes dd.LSAs)

/-- The loop of DatabaseDescription.unmarshal and
LinkStateAcknowledgement.unmarshal over trailing LSA headers: one
LSAHeader per 20 bytes, `parseLSAHeader(b[20*i : 20*i+20])`.  The caller
has checked that the length is a multiple of 20. -/
def parseLSAHeaders : Bytes → List LSAHeader
  | b0 :: b1 :: b2 :: b3 :: b4 :: b5 :: b6 :: b7 :: b8 :: b9 ::
      b10 :: b11 :: b12 :: b13 :: b14 :: b15 :: b16 :: b17 :: b18 :: b19 :: rest =>
    parseLSAHeader [b0, b1, b2, b3, b4, b5, b6, b7, b8, b9,
      b10, b11, b12, b13, b14, b15, b16, b17, b18, b19] :: parseLSAHeaders rest
  | _ => []

/-- DatabaseDescription.unmarshal.  Requires at least the fixed 12 bytes and
a trailing region that is a whole number of 20-byte LSA headers.  (The
source reads the fixed fields before the alignment check; both are pure, so
the observable result is the same.) -/
def DatabaseDescription.unmarshalBody (hdr : Ospf3.Header) (b : Bytes) :
    Except Err DatabaseDescription :=
  if b.length < ddLen then .error .errParse
  else if (b.length - ddLen) % lsaHeaderLen ≠ 0 then .error .errParse
  else .ok
    { Header := hdr
      Options := options (slice b 0 4)
      InterfaceMTU := getUint16 (slice b 4 6)
      Flags := b.getD 7 0
      SequenceNumber := getUint32 (slice b 8 12)
      LSAs := parseLSAHeaders (b.drop ddLen) }

/-- A LinkStateRequest message (Go struct LinkStateRequest). -/
structure LinkStateRequest where
  Header : Header
  LSAs : List LSA
deriving DecidableEq

/-- Well-formedness of a LinkStateRequest per its Go field types. -/
abbrev LinkStateRequest.WF (lsr : LinkStateRequest) : Prop :=
  lsr.Header.WF ∧ ∀ l ∈ lsr.LSAs, l.WF

/-- LinkStateRequest.len: fixed Header plus 12 bytes per LSA. -/
def LinkStateRequest.len (lsr : LinkStateRequest) : Nat :=
  headerLen + lsaLen * lsr.LSAs.length

/-- One 12-byte LinkStateRequest entry: the LSA is written at offset 2 of
the entry (`b[2+nn : nn+lsaLen]`), the two reserved bytes keep the zero of
the freshly allocated buffer. -/
def lsrEntryBytes (l : LSA) : Bytes := [0, 0] ++ l.marshalBytes

/-- LinkStateRequest.marshal: header then one 12-byte entry per LSA;
never fails. -/
def LinkStateRequest.marshalBytes (lsr : LinkStateRequest) : Except Err Bytes :=
  .ok (Header.marshalBytes lsr.Header linkStateRequestType (lsr.len % 2 ^ 16) ++
    (lsr.LSAs.map lsrEntryBytes).flatten)

/-- The loop of LinkStateRequest.unmarshal over trailing entries: one LSA
per 12 bytes, parsed from `b[2+12*i : 12+12*i]` (the first two bytes of each
entry are reserved).  The caller has checked that the length is a multiple
of 12. -/
def parseLSAs : Bytes → List LSA
  | _r0 :: _r1 :: b2 :: b3 :: b4 :: b5 :: b6 :: b7 :: b8 :: b9 :: b10 :: b11 :: rest =>
    parseLSA [b2, b3, b4, b5, b6, b7, b8, b9, b10, b11] :: parseLSAs rest
  | _ => []

/-- LinkStateRequest.unmarshal: the body must be a whole number of 12-byte
entries. -/
def LinkStateRequest.unmarshalBody (hdr : Ospf3.Header) (b : Bytes) :
    Except Err LinkStateRequest :=
  if b.length % lsaLen ≠ 0 then .error .errParse
  else .ok { Header := hdr, LSAs := parseLSAs b }

/-- A LinkStateAcknowledgement message (Go struct LinkStateAcknowledgement). -/
structure LinkStateAcknowledgement where
  Header : Header
  LSAs : List LSAHeader
deriving DecidableEq

/-- Well-formedness of a LinkStateAcknowledgement per its Go field types. -/
abbrev LinkStateAcknowledgement.WF (la : LinkStateAcknowledgement) : Prop :=
  la.Header.WF ∧ ∀ lh ∈ la.LSAs, lh.WF

/-- LinkStateAcknowledgement.len: fixed Header plus 20 bytes per LSA header. -/
def LinkStateAcknowledgement.len (la : LinkStateAcknowledgement) : Nat :=
  headerLen + lsaHeaderLen * la.LSAs.length

/-- LinkStateAcknowledgement.marshal: header then one 20-byte LSA header per
element; never fails. -/
def LinkStateAcknowledgement.marshalBytes (la : LinkStateAcknowledgement) :
    Except Err Bytes :=
  .ok (Header.marshalBytes la.Header linkStateAcknowledgementType (la.len % 2 ^ 16) ++
    lsaHeadersBytes la.LSAs)

/-- LinkStateAcknowledgement.unmarshal: the body must be a whole number of
20-byte LSA headers. -/
def LinkStateAcknowledgement.unmarshalBody (hdr : Ospf3.Header) (b : Bytes) :
    Except Err LinkStateAcknowledgement :=
  if b.length % lsaHeaderLen ≠ 0 then .error .errParse
  else .ok { Header := hdr, LSAs := parseLSAHeaders b }

/-- The Message interface, as the closed sum of the four implemented
variants. -/
inductive Message where
  | hello : Hello → Message
  | databaseDescription : DatabaseDescription → Message
  | linkStateRequest : LinkStateRequest → Message
  | linkStateAcknowledgement : LinkStateAcknowledgement → Message
deriving DecidableEq

/-- Message.len dispatch. -/
def Message.len : Message → Nat
  | .hello h => h.len
  | .databaseDescription dd => dd.len
  | .linkStateRequest lsr => lsr.len
  | .linkStateAcknowledgement la => la.len

/-- Message.marshal dispatch. -/
def Message.marshalBytes : Message → Except Err Bytes
  | .hello h => h.marshalBytes
  | .databaseDescription dd => dd.marshalBytes
  | .linkStateRequest lsr => lsr.marshalBytes
  | .linkStateAcknowledgement la => la.marshalBytes

/-- Well-formedness of a Message per its Go field types. -/
abbrev Message.WF : Message → Prop
  | .hello h => h.WF
  | .databaseDescription dd => dd.WF
  | .linkStateRequest lsr => lsr.WF
  | .linkStateAcknowledgement la => la.WF

/-- MarshalMessage: fails (wrapping errMarshal) on a nil Message, otherwise
allocates m.len() zeroed bytes and lets the variant fill them. -/
def MarshalMessage : Option Message → Except Err Bytes
  | none => .error .errMarshal
  | some m => m.marshalBytes

/-- ParseMessage: parse the header, dispatch on the packet type byte
(an unknown type is the distinct notImplemented error), then hand the
variant the body bytes `b[16:plen]`. -/
def ParseMessage (b : Bytes) : Except Err Message :=
  match parseHeader b with
  | .error e => .error e
  | .ok (h, ptyp, plen) =>
    let body := slice b headerLen plen
    if ptyp = helloType then
      (Hello.unmarshalBody h body).map Message.hello
    else if ptyp = databaseDescriptionType then
      (DatabaseDescription.unmarshalBody h body).map Message.databaseDescription
    else if ptyp = linkStateRequestType then
      (LinkStateRequest.unmarshalBody h body).map Message.linkStateRequest
    else if ptyp = linkStateAcknowledgementType then
      (LinkStateAcknowledgement.unmarshalBody h body).map Message.linkStateAcknowledgement
    else .error (.notImplemented ptyp)

/-- A duration that is a whole number of seconds representable in 16 bits. -/
abbrev wholeSeconds16 (d : Nat) : Prop := d % second = 0 ∧ d / second < 2 ^ 16

/-- Validity of a message exactly as claim C1 words it: the Options value
has no bit set above bit 23, the duration fields are whole numbers of
seconds representable in 16 bits, and the total wire length fits the
16-bit packet length field. -/
abbrev Message.ClaimValid : Message → Prop
  | .hello h => Options.valid h.Options = true ∧ wholeSeconds16 h.HelloInterval ∧
      wholeSeconds16 h.RouterDeadInterval ∧ h.len < 2 ^ 16
  | .databaseDescription dd => Options.valid dd.Options = true ∧
      (∀ lh ∈ dd.LSAs, wholeSeconds16 lh.Age) ∧ dd.len < 2 ^ 16
  | .linkStateRequest lsr => lsr.len < 2 ^ 16
  | .linkStateAcknowledgement la =>
      (∀ lh ∈ la.LSAs, wholeSeconds16 lh.Age) ∧ la.len < 2 ^ 16

/-- Validity as the amended claim C1 needs it: additionally, a
DatabaseDescription Flags value must fit in the 8 bits the wire encoding
stores for it. -/
abbrev Message.Valid (m : Message) : Prop :=
  m.ClaimValid ∧ match m with
    | .databaseDescription dd => dd.Flags < 2 ^ 8
    | _ => True

/-- A concrete Header used in concrete scenarios below. -/
def sampleHeader : Header :=
  { RouterID := ⟨192, 0, 2, 1⟩, AreaID := ⟨0, 0, 0, 0⟩, Checksum := 0, InstanceID := 1 }

/-- The concrete Hello scenario of the specification: InterfaceID 1,
RouterPriority 1, Options V6Bit and EBit, HelloInterval 5s,
RouterDeadInterval 10s, two neighbor IDs. -/
def sampleHello : Hello :=
  { Header := sampleHeader
    InterfaceID := 1
    RouterPriority := 1
    Options := 3
    HelloInterval := 5 * second
    RouterDeadInterval := 10 * second
    DesignatedRouterID := ⟨192, 0, 2, 1⟩
    BackupDesignatedRouterID := ⟨192, 0, 2, 2⟩
    NeighborIDs := [⟨192, 0, 2, 2⟩, ⟨192, 0, 2, 3⟩] }

/-- The 44 wire bytes of the concrete Hello scenario. -/
def sampleHelloBytes : Bytes :=
  [3, 1, 0, 44, 192, 0, 2, 1, 0, 0, 0, 0, 0, 0, 1, 0,
   0, 0, 0, 1, 1, 0, 0, 3, 0, 5, 0, 10, 192, 0, 2, 1, 192, 0, 2, 2,
   192, 0, 2, 2, 192, 0, 2, 3]

/-- A DatabaseDescription whose Flags value does not fit the single flags
byte of the wire format (DDFlags is a Go uint16, so 256 is representable). -/
def flagsOverflowDD : DatabaseDescription :=
  { Header := sampleHeader
    Options := 0
    InterfaceMTU := 1500
    Flags := 256
    SequenceNumber := 0
    LSAs := [] }

/-- A concrete LSA (a RouterLSA). -/
def sampleLSA : LSA :=
  { lsType := 0x2001, LinkStateID := ⟨192, 0, 2, 1⟩, AdvertisingRouter := ⟨192, 0, 2, 1⟩ }

/-- A 16-byte buffer whose header is well formed but whose packet type is 4
(Link State Update), which the codec does not implement. -/
def lsUpdateBytes : Bytes :=
  [3, 4, 0, 16, 192, 0, 2, 1, 0, 0, 0, 0, 0, 0, 1, 0]

/-- The wire bytes of flagsOverflowDD: the flags byte (offset 23) holds
256 mod 256 = 0, so parsing returns Flags = 0, not 256. -/
def flagsOverflowBytes : Bytes :=
  [3, 2, 0, 28, 192, 0, 2, 1, 0, 0, 0, 0, 0, 0, 1, 0,
   0, 0, 0, 0, 5, 220, 0, 0, 0, 0, 0, 0]

/-- A Hello whose Options value has a bit set above bit 23 (bit 24). -/
def invalidOptionsHello : Hello :=
  { sampleHello with Options := 0x01000000 }

/-- A concrete LSA header (a RouterLSA aged one second, sequence 255). -/
def sampleLSAHeader : LSAHeader :=
  { Age := 1 * second, LSA := sampleLSA, SequenceNumber := 255, Checksum := 0, Length := 20 }

/-! Arithmetic and bitwise bridge lemmas: Go packs the 8-bit router
priority and the 24-bit options mask into one 32-bit word with shift and
or, and checks masks with bitwise and; these lemmas restate those
operations in div/mod terms that linear arithmetic can use. -/

/-- Packing a value above a 24-bit value with shift-or is plain addition. -/
theorem lor_shift24 (p o : Nat) (ho : o < 2 ^ 24) :
    p <<< 24 ||| o = p * 2 ^ 24 + o := by
  apply Nat.eq_of_testBit_eq
  intro i
  rw [Nat.testBit_lor, Nat.testBit_shiftLeft, Nat.mul_comm p,
    Nat.testBit_mul_pow_two_add _ ho]
  rcases Nat.lt_or_ge i 24 with hi | hi
  · rw [if_pos hi]
    simp [Nat.not_le.mpr hi]
  · rw [if_neg (Nat.not_lt.mpr hi)]
    have hb : o.testBit i = false :=
      Nat.testBit_lt_two_pow (lt_of_lt_of_le ho (Nat.pow_le_pow_right (by norm_num) hi))
    simp [hb, hi]

/-- Masking with the low 24 bits is reduction mod 2^24. -/
theorem and_mask24_eq_mod (a : Nat) : a &&& 0xffffff = a % 2 ^ 24 := by
  rw [show (0xffffff : Nat) = 2 ^ 24 - 1 by norm_num, Nat.and_pow_two_sub_one_eq_mod]

/-- A value below 2^24 has nothing in the high byte of its 32-bit word. -/
theorem and_hi8_eq_zero (o : Nat) (h : o < 2 ^ 24) : o &&& 0xff000000 = 0 := by
  apply Nat.eq_of_testBit_eq
  intro i
  rw [Nat.testBit_and, Nat.zero_testBit]
  rcases Nat.lt_or_ge i 24 with hi | hi
  · have hm : (0xff000000 : Nat).testBit i = false := by
      rw [show (0xff000000 : Nat) = 2 ^ 24 * 0xff + 0 by norm_num,
        Nat.testBit_mul_pow_two_add _ (by norm_num), if_pos hi, Nat.zero_testBit]
    simp [hm]
  · have ho : o.testBit i = false :=
      Nat.testBit_lt_two_pow (lt_of_lt_of_le h (Nat.pow_le_pow_right (by norm_num) hi))
    simp [ho]

/-- A 32-bit value with nothing in its high byte is below 2^24. -/
theorem lt_pow24_of_and_hi8 (o : Nat) (h32 : o < 2 ^ 32) (h : o &&& 0xff000000 = 0) :
    o < 2 ^ 24 := by
  have hdiv : o / 2 ^ 24 = 0 := by
    apply Nat.eq_of_testBit_eq
    intro j
    rw [Nat.zero_testBit]
    rcases Nat.lt_or_ge j 8 with hj | hj
    · have hmask : (0xff000000 : Nat).testBit (24 + j) = true := by
        rw [show (0xff000000 : Nat) = 2 ^ 24 * (2 ^ 8 - 1) + 0 by norm_num,
          Nat.testBit_mul_pow_two_add _ (by norm_num), if_neg (by omega),
          Nat.testBit_two_pow_sub_one]
        simp
        omega
      have h0 : (o &&& 0xff000000).testBit (24 + j) = false := by
        rw [h, Nat.zero_testBit]
      rw [Nat.testBit_and, hmask, Bool.and_true] at h0
      have hido : o.testBit (24 + j) = (o / 2 ^ 24).testBit j := by
        conv_lhs => rw [show o = 2 ^ 24 * (o / 2 ^ 24) + o % 2 ^ 24 by omega]
        rw [Nat.testBit_mul_pow_two_add _ (Nat.mod_lt _ (by norm_num)), if_neg (by omega)]
        congr 1
        omega
      rw [← hido, h0]
    · exact Nat.testBit_lt_two_pow
        (lt_of_lt_of_le (by omega) (Nat.pow_le_pow_right (by norm_num) hj))
  omega

/-- For a real uint32 value the Options.valid predicate says exactly that
the value fits in 24 bits. -/
theorem Options.valid_true_iff (o : Nat) (h32 : o < 2 ^ 32) :
    Options.valid o = true ↔ o < 2 ^ 24 := by
  unfold Options.valid
  rw [beq_iff_eq]
  exact ⟨lt_pow24_of_and_hi8 o h32, and_hi8_eq_zero o⟩

/-- A whole-second duration rounds to its own number of seconds. -/
theorem roundSeconds_whole (d : Nat) (h : d % second = 0) :
    roundSeconds d = d / second := by
  unfold roundSeconds
  rw [h, if_pos]
  unfold second
  omega

/-! Helper lemmas about byte buffers. -/

/-- Peeling one known byte off a buffer of known length. -/
theorem destruct_cons (b : Bytes) (n : Nat) (h : b.length = n + 1) :
    ∃ x t, b = x :: t ∧ t.length = n := by
  cases b with
  | nil => simp at h
  | cons x t => exact ⟨x, t, rfl, by simpa using h⟩

/-- Reading any position of a real byte buffer yields an octet (the default
value 0 included). -/
theorem getD_lt_of_byteOk (b : Bytes) (hb : ByteOk b) (i : Nat) : b.getD i 0 < 256 := by
  rcases Nat.lt_or_ge i b.length with h | h
  · rw [List.getD_eq_getElem b 0 h]
    exact hb _ (List.getElem_mem h)
  · rw [List.getD_eq_default _ _ h]
    omega

/-- A slice of a real byte buffer is a real byte buffer. -/
theorem byteOk_slice (b : Bytes) (hb : ByteOk b) (i j : Nat) : ByteOk (slice b i j) :=
  fun x hx => hb x (List.mem_of_mem_drop (List.mem_of_mem_take hx))

/-- A prefix of a real byte buffer is a real byte buffer. -/
theorem byteOk_take (b : Bytes) (hb : ByteOk b) (n : Nat) : ByteOk (b.take n) :=
  fun x hx => hb x (List.mem_of_mem_take hx)

/-- A suffix of a real byte buffer is a real byte buffer. -/
theorem byteOk_drop (b : Bytes) (hb : ByteOk b) (n : Nat) : ByteOk (b.drop n) :=
  fun x hx => hb x (List.mem_of_mem_drop hx)

/-- A big-endian 16-bit read from a real buffer fits in 16 bits. -/
theorem getUint16_lt (b : Bytes) (hb : ByteOk b) : getUint16 b < 2 ^ 16 := by
  have h0 := getD_lt_of_byteOk b hb 0
  have h1 := getD_lt_of_byteOk b hb 1
  unfold getUint16
  omega

/-- A big-endian 32-bit read from a real buffer fits in 32 bits. -/
theorem getUint32_lt (b : Bytes) (hb : ByteOk b) : getUint32 b < 2 ^ 32 := by
  have h0 := getD_lt_of_byteOk b hb 0
  have h1 := getD_lt_of_byteOk b hb 1
  have h2 := getD_lt_of_byteOk b hb 2
  have h3 := getD_lt_of_byteOk b hb 3
  unfold getUint32
  omega

/-- An ID read from a real buffer is well formed. -/
theorem parseID_WF (b : Bytes) (hb : ByteOk b) : (parseID b).WF :=
  ⟨getD_lt_of_byteOk b hb 0, getD_lt_of_byteOk b hb 1,
    getD_lt_of_byteOk b hb 2, getD_lt_of_byteOk b hb 3⟩

/-! Lengths of the marshaled pieces. -/

/-- A marshaled header occupies exactly 16 bytes. -/
theorem headerBytes_length (h : Header) (ptyp plen : Nat) :
    (Header.marshalBytes h ptyp plen).length = 16 := by
  simp [Header.marshalBytes, putUint16, ID.bytes]

/-- A marshaled LSA occupies exactly 10 bytes. -/
theorem lsaBytes_length (l : LSA) : l.marshalBytes.length = 10 := by
  simp [LSA.marshalBytes, putUint16, ID.bytes]

/-- A marshaled LSA header occupies exactly 20 bytes. -/
theorem lsaHeaderBytes_length (lh : LSAHeader) : lh.marshalBytes.length = 20 := by
  simp [LSAHeader.marshalBytes, putUint16Seconds, putUint16, putUint32,
    LSA.marshalBytes, ID.bytes]

/-- A LinkStateRequest entry occupies exactly 12 bytes. -/
theorem lsrEntryBytes_length (l : LSA) : (lsrEntryBytes l).length = 12 := by
  simp [lsrEntryBytes, lsaBytes_length]

/-- The trailing neighbor IDs occupy 4 bytes each. -/
theorem idsBytes_length (ids : List ID) : (idsBytes ids).length = 4 * ids.length := by
  induction ids with
  | nil => rfl
  | cons id t ih =>
    simp only [idsBytes, List.map_cons, List.flatten_cons, List.length_append,
      List.length_cons] at ih ⊢
    simp [ID.bytes, ih]
    omega

/-- The trailing LSA headers occupy 20 bytes each. -/
theorem lsaHeadersBytes_length (ls : List LSAHeader) :
    (lsaHeadersBytes ls).length = 20 * ls.length := by
  induction ls with
  | nil => rfl
  | cons lh t ih =>
    simp only [lsaHeadersBytes, List.map_cons, List.flatten_cons, List.length_append,
      List.length_cons] at ih ⊢
    simp [lsaHeaderBytes_length, ih]
    omega

/-- The trailing LinkStateRequest entries occupy 12 bytes each. -/
theorem lsrEntriesBytes_length (ls : List LSA) :
    ((ls.map lsrEntryBytes).flatten).length = 12 * ls.length := by
  induction ls with
  | nil => rfl
  | cons l t ih =>
    simp only [List.map_cons, List.flatten_cons, List.length_append, List.length_cons]
    simp [lsrEntryBytes_length, ih]
    omega

/-! How the trailing-array parsing loops consume their input. -/

/-- A buffer shorter than one neighbor ID parses to no neighbor IDs. -/
theorem parseIDs_short (b : Bytes) (h : b.length < 4) : parseIDs b = [] := by
  unfold parseIDs
  split
  · exfalso
    simp only [List.length_cons] at h
    omega
  · rfl

/-- Parsing neighbor IDs consumes one whole 4-byte chunk at a time. -/
theorem parseIDs_append (c rest : Bytes) (hc : c.length = 4) :
    parseIDs (c ++ rest) = parseID c :: parseIDs rest := by
  obtain ⟨c0, c, rfl, h0⟩ := destruct_cons c 3 hc
  obtain ⟨c1, c, rfl, h1⟩ := destruct_cons c 2 h0
  obtain ⟨c2, c, rfl, h2⟩ := destruct_cons c 1 h1
  obtain ⟨c3, c, rfl, h3⟩ := destruct_cons c 0 h2
  rw [List.length_eq_zero.mp h3]
  rfl

/-- A buffer shorter than one 12-byte entry parses to no LSAs. -/
theorem parseLSAs_short (b : Bytes) (h : b.length < 12) : parseLSAs b = [] := by
  unfold parseLSAs
  split
  · exfalso
    simp only [List.length_cons] at h
    omega
  · rfl

/-- Parsing LinkStateRequest entries consumes one whole 12-byte chunk at a
time, reading the LSA from bytes 2 through 11 of the chunk. -/
theorem parseLSAs_append (c rest : Bytes) (hc : c.length = 12) :
    parseLSAs (c ++ rest) = parseLSA (slice c 2 12) :: parseLSAs rest := by
  obtain ⟨c0, c, rfl, h0⟩ := destruct_cons c 11 hc
  obtain ⟨c1, c, rfl, h1⟩ := destruct_cons c 10 h0
  obtain ⟨c2, c, rfl, h2⟩ := destruct_cons c 9 h1
  obtain ⟨c3, c, rfl, h3⟩ := destruct_cons c 8 h2
  obtain ⟨c4, c, rfl, h4⟩ := destruct_cons c 7 h3
  obtain ⟨c5, c, rfl, h5⟩ := destruct_cons c 6 h4
  obtain ⟨c6, c, rfl, h6⟩ := destruct_cons c 5 h5
  obtain ⟨c7, c, rfl, h7⟩ := destruct_cons c 4 h6
  obtain ⟨c8, c, rfl, h8⟩ := destruct_cons c 3 h7
  obtain ⟨c9, c, rfl, h9⟩ := destruct_cons c 2 h8
  obtain ⟨c10, c, rfl, h10⟩ := destruct_cons c 1 h9
  obtain ⟨c11, c, rfl, h11⟩ := destruct_cons c 0 h10
  rw [List.length_eq_zero.mp h11]
  rfl

/-- A buffer shorter than one 20-byte LSA header parses to none. -/
theorem parseLSAHeaders_short (b : Bytes) (h : b.length < 20) :
    parseLSAHeaders b = [] := by
  unfold parseLSAHeaders
  split
  · exfalso
    simp only [List.length_cons] at h
    omega
  · rfl

/-- Parsing LSA headers consumes one whole 20-byte chunk at a time. -/
theorem parseLSAHeaders_append (c rest : Bytes) (hc : c.length = 20) :
    parseLSAHeaders (c ++ rest) = parseLSAHeader c :: parseLSAHeaders rest := by
  obtain ⟨c0, c, rfl, h0⟩ := destruct_cons c 19 hc
  obtain ⟨c1, c, rfl, h1⟩ := destruct_cons c 18 h0
  obtain ⟨c2, c, rfl, h2⟩ := destruct_cons c 17 h1
  obtain ⟨c3, c, rfl, h3⟩ := destruct_cons c 16 h2
  obtain ⟨c4, c, rfl, h4⟩ := destruct_cons c 15 h3
  obtain ⟨c5, c, rfl, h5⟩ := destruct_cons c 14 h4
  obtain ⟨c6, c, rfl, h6⟩ := destruct_cons c 13 h5
  obtain ⟨c7, c, rfl, h7⟩ := destruct_cons c 12 h6
  obtain ⟨c8, c, rfl, h8⟩ := destruct_cons c 11 h7
  obtain ⟨c9, c, rfl, h9⟩ := destruct_cons c 10 h8
  obtain ⟨c10, c, rfl, h10⟩ := destruct_cons c 9 h9
  obtain ⟨c11, c, rfl, h11⟩ := destruct_cons c 8 h10
  obtain ⟨c12, c, rfl, h12⟩ := destruct_cons c 7 h11
  obtain ⟨c13, c, rfl, h13⟩ := destruct_cons c 6 h12
  obtain ⟨c14, c, rfl, h14⟩ := destruct_cons c 5 h13
  obtain ⟨c15, c, rfl, h15⟩ := destruct_cons c 4 h14
  obtain ⟨c16, c, rfl, h16⟩ := destruct_cons c 3 h15
  obtain ⟨c17, c, rfl, h17⟩ := destruct_cons c 2 h16
  obtain ⟨c18, c, rfl, h18⟩ := destruct_cons c 1 h17
  obtain ⟨c19, c, rfl, h19⟩ := destruct_cons c 0 h18
  rw [List.length_eq_zero.mp h19]
  rfl

/-- Each 4-byte chunk yields one neighbor ID. -/
theorem parseIDs_length (b : Bytes) : (parseIDs b).length = b.length / 4 := by
  suffices hgen : ∀ n b2, List.length b2 = n → (List.length (parseIDs b2) = List.length b2 / 4) from
    hgen b.length b rfl
  intro n
  induction n using Nat.strong_induction_on with
  | _ n ih =>
    intro b hn
    subst hn
    rcases Nat.lt_or_ge b.length 4 with h | h
    · rw [parseIDs_short b h]
      simp [Nat.div_eq_of_lt h]
    · have htake : (b.take 4).length = 4 := by rw [List.length_take]; omega
      conv_lhs => rw [← List.take_append_drop 4 b]
      rw [parseIDs_append _ _ htake]
      have hih := ih (b.drop 4).length (by rw [List.length_drop]; omega) (b.drop 4) rfl
      rw [List.length_cons, hih, List.length_drop]
      omega

/-- Each 12-byte chunk yields one LSA. -/
theorem parseLSAs_length (b : Bytes) : (parseLSAs b).length = b.length / 12 := by
  suffices hgen : ∀ n b2, List.length b2 = n → (List.length (parseLSAs b2) = List.length b2 / 12) from
    hgen b.length b rfl
  intro n
  induction n using Nat.strong_induction_on with
  | _ n ih =>
    intro b hn
    subst hn
    rcases Nat.lt_or_ge b.length 12 with h | h
    · rw [parseLSAs_short b h]
      simp [Nat.div_eq_of_lt h]
    · have htake : (b.take 12).length = 12 := by rw [List.length_take]; omega
      conv_lhs => rw [← List.take_append_drop 12 b]
      rw [parseLSAs_append _ _ htake]
      have hih := ih (b.drop 12).length (by rw [List.length_drop]; omega) (b.drop 12) rfl
      rw [List.length_cons, hih, List.length_drop]
      omega

/-- Parsing the four bytes of a marshaled ID recovers the ID. -/
theorem parseID_bytes (id : ID) : parseID id.bytes = id := by
  simp [parseID, ID.bytes]

/-- Parsing a marshaled LSA recovers the LSA. -/
theorem parseLSA_marshal (l : LSA) (hwf : l.WF) : parseLSA l.marshalBytes = l := by
  obtain ⟨t, ⟨l0, l1, l2, l3⟩, ⟨a0, a1, a2, a3⟩⟩ := l
  simp only [LSA.WF, ID.WF] at hwf
  simp [parseLSA, LSA.marshalBytes, putUint16, ID.bytes, slice, parseID, getUint16]
  omega

/-- Parsing a marshaled LSA header recovers the LSA header, provided its
fields fit their wire widths and its Age is a whole 16-bit number of
seconds. -/
theorem parseLSAHeader_marshal (lh : LSAHeader) (hwf : lh.WF)
    (hage : wholeSeconds16 lh.Age) : parseLSAHeader lh.marshalBytes = lh := by
  obtain ⟨age, ⟨t, ⟨l0, l1, l2, l3⟩, ⟨a0, a1, a2, a3⟩⟩, seq, ck, ln⟩ := lh
  simp only [LSAHeader.WF, LSA.WF, ID.WF] at hwf
  have hw : age % second = 0 := by simpa using hage.1
  have hs : age / second < 2 ^ 16 := by simpa using hage.2
  have hr : roundSeconds age = age / second := roundSeconds_whole _ hw
  simp only [second] at hw hs
  simp [parseLSAHeader, LSAHeader.marshalBytes, putUint16Seconds, hr, putUint16,
    putUint32, LSA.marshalBytes, ID.bytes, slice, parseID, parseLSA, getUint16,
    getUint32, uint16Seconds, second]
  omega

/-- Parsing back a marshaled trailing array of neighbor IDs recovers it. -/
theorem parseIDs_idsBytes (ids : List ID) : parseIDs (idsBytes ids) = ids := by
  induction ids with
  | nil => rfl
  | cons id t ih =>
    have h4 : (ID.bytes id).length = 4 := by simp [ID.bytes]
    have hsplit : idsBytes (id :: t) = id.bytes ++ idsBytes t := by simp [idsBytes]
    rw [hsplit, parseIDs_append _ _ h4, parseID_bytes, ih]

/-- Parsing back a marshaled trailing array of LSA headers recovers it, for
well-formed headers with whole 16-bit second ages. -/
theorem parseLSAHeaders_marshal (ls : List LSAHeader)
    (h : ∀ lh ∈ ls, lh.WF ∧ wholeSeconds16 lh.Age) :
    parseLSAHeaders (lsaHeadersBytes ls) = ls := by
  induction ls with
  | nil => rfl
  | cons lh t ih =>
    have hsplit : lsaHeadersBytes (lh :: t) = lh.marshalBytes ++ lsaHeadersBytes t := by
      simp [lsaHeadersBytes]
    rw [hsplit, parseLSAHeaders_append _ _ (lsaHeaderBytes_length lh),
      parseLSAHeader_marshal lh (h lh (by simp)).1 (h lh (by simp)).2,
      ih (fun x hx => h x (by simp [hx]))]

/-- Parsing back the marshaled trailing entries of a LinkStateRequest
recovers the LSAs, for well-formed LSAs. -/
theorem parseLSAs_marshal (ls : List LSA) (h : ∀ l ∈ ls, l.WF) :
    parseLSAs ((ls.map lsrEntryBytes).flatten) = ls := by
  induction ls with
  | nil => rfl
  | cons l t ih =>
    have hsplit : ((l :: t).map lsrEntryBytes).flatten =
        lsrEntryBytes l ++ (t.map lsrEntryBytes).flatten := by simp
    have hsl : slice (lsrEntryBytes l) 2 12 = l.marshalBytes := by
      simp only [slice, lsrEntryBytes, List.cons_append, List.nil_append,
        List.drop_succ_cons, List.drop_zero]
      exact List.take_of_length_le (by simp [lsaBytes_length])
    rw [hsplit, parseLSAs_append _ _ (lsrEntryBytes_length l), hsl,
      parseLSA_marshal l (h l (by simp)), ih (fun x hx => h x (by simp [hx]))]

/-- An LSA parsed from a real buffer is well formed. -/
theorem parseLSA_WF (c : Bytes) (hc : ByteOk c) : (parseLSA c).WF :=
  ⟨getUint16_lt _ (byteOk_slice _ hc 0 2), parseID_WF _ (byteOk_slice _ hc 2 6),
    parseID_WF _ (byteOk_slice _ hc 6 10)⟩

/-- An LSA header parsed from a real buffer is well formed and its Age is a
whole 16-bit number of seconds. -/
theorem parseLSAHeader_WF (c : Bytes) (hc : ByteOk c) :
    (parseLSAHeader c).WF ∧ wholeSeconds16 (parseLSAHeader c).Age := by
  refine ⟨⟨parseLSA_WF _ (byteOk_slice _ hc 2 12),
    getUint32_lt _ (byteOk_slice _ hc 12 16),
    getUint16_lt _ (byteOk_slice _ hc 16 18),
    getUint16_lt _ (byteOk_slice _ hc 18 20)⟩, ?_, ?_⟩
  · simp [parseLSAHeader, uint16Seconds, Nat.mul_mod_left]
  · have hlt := getUint16_lt _ (byteOk_slice _ hc 0 2)
    simp only [parseLSAHeader, uint16Seconds]
    rw [Nat.mul_div_cancel _ (by norm_num [second])]
    exact hlt

/-- Every neighbor ID parsed from a real buffer is well formed. -/
theorem parseIDs_WF (b : Bytes) (hb : ByteOk b) : ∀ id ∈ parseIDs b, id.WF := by
  suffices hgen : ∀ n b2, List.length b2 = n → ByteOk b2 →
      ∀ id ∈ parseIDs b2, id.WF from hgen b.length b rfl hb
  intro n
  induction n using Nat.strong_induction_on with
  | _ n ih =>
    intro b hn hb
    subst hn
    rcases Nat.lt_or_ge b.length 4 with h | h
    · rw [parseIDs_short b h]
      simp
    · have htake : (b.take 4).length = 4 := by rw [List.length_take]; omega
      rw [← List.take_append_drop 4 b, parseIDs_append _ _ htake]
      intro id hid
      rcases List.mem_cons.mp hid with hq | hmem
      · rw [hq]
        exact parseID_WF _ (byteOk_take _ hb 4)
      · exact ih (b.drop 4).length (by rw [List.length_drop]; omega) (b.drop 4) rfl
          (byteOk_drop _ hb 4) id hmem

/-- Every LSA parsed from a real LinkStateRequest body is well formed. -/
theorem parseLSAs_WF (b : Bytes) (hb : ByteOk b) : ∀ l ∈ parseLSAs b, l.WF := by
  suffices hgen : ∀ n b2, List.length b2 = n → ByteOk b2 →
      ∀ l ∈ parseLSAs b2, l.WF from hgen b.length b rfl hb
  intro n
  induction n using Nat.strong_induction_on with
  | _ n ih =>
    intro b hn hb
    subst hn
    rcases Nat.lt_or_ge b.length 12 with h | h
    · rw [parseLSAs_short b h]
      simp
    · have htake : (b.take 12).length = 12 := by rw [List.length_take]; omega
      rw [← List.take_append_drop 12 b, parseLSAs_append _ _ htake]
      intro l hl
      rcases List.mem_cons.mp hl with hq | hmem
      · rw [hq]
        exact parseLSA_WF _ (byteOk_slice _ (byteOk_take _ hb 12) 2 12)
      · exact ih (b.drop 12).length (by rw [List.length_drop]; omega) (b.drop 12) rfl
          (byteOk_drop _ hb 12) l hmem

/-- Every LSA header parsed from a real buffer is well formed with a whole
16-bit second age. -/
theorem parseLSAHeaders_WF (b : Bytes) (hb : ByteOk b) :
    ∀ lh ∈ parseLSAHeaders b, lh.WF ∧ wholeSeconds16 lh.Age := by
  suffices hgen : ∀ n b2, List.length b2 = n → ByteOk b2 →
      ∀ lh ∈ parseLSAHeaders b2, lh.WF ∧ wholeSeconds16 lh.Age from
    hgen b.length b rfl hb
  intro n
  induction n using Nat.strong_induction_on with
  | _ n ih =>
    intro b hn hb
    subst hn
    rcases Nat.lt_or_ge b.length 20 with h | h
    · rw [parseLSAHeaders_short b h]
      simp
    · have htake : (b.take 20).length = 20 := by rw [List.length_take]; omega
      rw [← List.take_append_drop 20 b, parseLSAHeaders_append _ _ htake]
      intro lh hl
      rcases List.mem_cons.mp hl with hq | hmem
      · rw [hq]
        exact parseLSAHeader_WF _ (byteOk_take _ hb 20)
      · exact ih (b.drop 20).length (by rw [List.length_drop]; omega) (b.drop 20) rfl
          (byteOk_drop _ hb 20) lh hmem

/-- Parsing the header of any marshaled message recovers the logical
Header, the packet type and the true total length, whenever that length
fits the 16-bit length field.  Every variant marshals itself as its header
bytes (carrying the uint16 conversion of its computed length) followed by
its body bytes. -/
theorem parseHeader_marshal (h : Header) (hwf : h.WF) (ptyp : Nat) (body : Bytes)
    (hlen : 16 + body.length < 2 ^ 16) :
    parseHeader (Header.marshalBytes h ptyp ((16 + body.length) % 2 ^ 16) ++ body) =
      .ok (h, ptyp, 16 + body.length) := by
  obtain ⟨⟨r0, r1, r2, r3⟩, ⟨a0, a1, a2, a3⟩, ck, iid⟩ := h
  simp only [Header.WF, ID.WF] at hwf
  have hmod : (16 + body.length) % 2 ^ 16 = 16 + body.length := Nat.mod_eq_of_lt hlen
  simp only [Header.marshalBytes, putUint16, ID.bytes, version, hmod,
    List.cons_append, List.nil_append]
  unfold parseHeader
  rw [if_neg (by simp only [List.length_cons, List.length_append, headerLen]; omega)]
  rw [if_neg (by simp [version])]
  simp [slice, getUint16, parseID, headerLen]
  have hv : (16 + List.length body) / 256 % 256 * 256 + (16 + List.length body) % 256 =
      16 + List.length body := by omega
  have hck : ck / 256 % 256 * 256 + ck % 256 = ck := by omega
  rw [hv, hck, if_neg (by omega), if_neg (by omega)]

/-- Each 20-byte chunk yields one LSA header. -/
theorem parseLSAHeaders_length (b : Bytes) :
    (parseLSAHeaders b).length = b.length / 20 := by
  suffices hgen : ∀ n b2, List.length b2 = n → (List.length (parseLSAHeaders b2) = List.length b2 / 20) from
    hgen b.length b rfl
  intro n
  induction n using Nat.strong_induction_on with
  | _ n ih =>
    intro b hn
    subst hn
    rcases Nat.lt_or_ge b.length 20 with h | h
    · rw [parseLSAHeaders_short b h]
      simp [Nat.div_eq_of_lt h]
    · have htake : (b.take 20).length = 20 := by rw [List.length_take]; omega
      conv_lhs => rw [← List.take_append_drop 20 b]
      rw [parseLSAHeaders_append _ _ htake]
      have hih := ih (b.drop 20).length (by rw [List.length_drop]; omega) (b.drop 20) rfl
      rw [List.length_cons, hih, List.length_drop]
      omega

/-- The body bytes of a message start right after the 16 header bytes. -/
theorem slice_append_header (hdrB body : Bytes) (hh : hdrB.length = 16) :
    slice (hdrB ++ body) 16 (16 + body.length) = body := by
  unfold slice
  have h1 : (hdrB ++ body).drop 16 = body := by rw [← hh, List.drop_left]
  have h2 : 16 + body.length - 16 = body.length := by omega
  rw [h1, h2, List.take_length]

/-- Round trip for a well-formed, valid Hello message. -/
theorem hello_roundtrip (h : Hello) (hwf : h.WF)
    (hopt : Options.valid h.Options = true) (hi1 : wholeSeconds16 h.HelloInterval)
    (hi2 : wholeSeconds16 h.RouterDeadInterval) (hlen : h.len < 2 ^ 16) :
    ∃ b, MarshalMessage (some (.hello h)) = .ok b ∧ ParseMessage b = .ok (.hello h) := by
  obtain ⟨hdr, I, p, o, hi, rd, ⟨d0, d1, d2, d3⟩, ⟨e0, e1, e2, e3⟩, ids⟩ := h
  simp only [Hello.WF, ID.WF] at hwf
  obtain ⟨hhdr, hI, hp, ho32, hdr1, hdr2, hids⟩ := hwf
  have ho24 : o < 2 ^ 24 := by
    have := (Options.valid_true_iff o ho32).mp (by simpa using hopt)
    exact this
  have hlor : p <<< 24 ||| o = p * 2 ^ 24 + o := lor_shift24 p o ho24
  have hs1 : roundSeconds hi % 2 ^ 16 = hi / second := by
    rw [roundSeconds_whole hi (by simpa using hi1.1)]
    exact Nat.mod_eq_of_lt (by simpa using hi1.2)
  have hs2 : roundSeconds rd % 2 ^ 16 = rd / second := by
    rw [roundSeconds_whole rd (by simpa using hi2.1)]
    exact Nat.mod_eq_of_lt (by simpa using hi2.2)
  have hm : MarshalMessage (some (.hello
      ⟨hdr, I, p, o, hi, rd, ⟨d0, d1, d2, d3⟩, ⟨e0, e1, e2, e3⟩, ids⟩)) =
      .ok (Header.marshalBytes hdr helloType
        ((Hello.len ⟨hdr, I, p, o, hi, rd, ⟨d0, d1, d2, d3⟩, ⟨e0, e1, e2, e3⟩, ids⟩) % 2 ^ 16) ++
        (putUint32 I ++ putUint32 (p * 2 ^ 24 + o) ++ putUint16 (hi / second) ++
          putUint16 (rd / second) ++ [d0, d1, d2, d3] ++ [e0, e1, e2, e3] ++ idsBytes ids)) := by
    simp only [MarshalMessage, Message.marshalBytes, Hello.marshalBytes, hopt,
      Bool.true_eq_false, not_true_eq_false, if_neg, not_false_eq_true, if_false,
      putUint16Seconds, hs1, hs2, hlor, ID.bytes, List.append_assoc]
  refine ⟨_, hm, ?_⟩
  have hblen : (putUint32 I ++ putUint32 (p * 2 ^ 24 + o) ++ putUint16 (hi / second) ++
      putUint16 (rd / second) ++ [d0, d1, d2, d3] ++ [e0, e1, e2, e3] ++
      idsBytes ids).length = 20 + 4 * ids.length := by
    simp [putUint32, putUint16, idsBytes_length]
    omega
  have hleneq : Hello.len ⟨hdr, I, p, o, hi, rd, ⟨d0, d1, d2, d3⟩,
      ⟨e0, e1, e2, e3⟩, ids⟩ = 16 + (putUint32 I ++ putUint32 (p * 2 ^ 24 + o) ++
      putUint16 (hi / second) ++ putUint16 (rd / second) ++ [d0, d1, d2, d3] ++
      [e0, e1, e2, e3] ++ idsBytes ids).length := by
    rw [hblen]
    simp [Hello.len, headerLen, helloLen]
    omega
  rw [hleneq] at hm ⊢
  have hlen16 : 16 + (putUint32 I ++ putUint32 (p * 2 ^ 24 + o) ++ putUint16 (hi / second) ++
      putUint16 (rd / second) ++ [d0, d1, d2, d3] ++ [e0, e1, e2, e3] ++
      idsBytes ids).length < 2 ^ 16 := by
    rw [← hleneq]
    exact hlen
  have hph := parseHeader_marshal hdr hhdr helloType _ hlen16
  unfold ParseMessage
  rw [hph]
  simp only [helloType, headerLen, if_pos]
  rw [slice_append_header _ _ (headerBytes_length hdr 1 _)]
  suffices hsuf : Hello.unmarshalBody hdr (putUint32 I ++ putUint32 (p * 2 ^ 24 + o) ++
      putUint16 (hi / second) ++ putUint16 (rd / second) ++ [d0, d1, d2, d3] ++
      [e0, e1, e2, e3] ++ idsBytes ids) = .ok ⟨hdr, I, p, o, hi, rd, ⟨d0, d1, d2, d3⟩,
      ⟨e0, e1, e2, e3⟩, ids⟩ by
    rw [hsuf]
    rfl
  unfold Hello.unmarshalBody
  rw [if_neg (by rw [hblen]; simp [helloLen]), if_neg (by rw [hblen]; omega)]
  simp only [putUint32, putUint16, List.cons_append, List.nil_append]
  simp [slice, getUint32, getUint16, options, parseID, uint16Seconds, helloLen,
    parseIDs_idsBytes, and_mask24_eq_mod]
  have hw1 : hi % second = 0 := by simpa using hi1.1
  have hv1 : hi / second < 2 ^ 16 := by simpa using hi1.2
  have hw2 : rd % second = 0 := by simpa using hi2.1
  have hv2 : rd / second < 2 ^ 16 := by simpa using hi2.2
  simp only [second] at hw1 hv1 hw2 hv2 ⊢
  omega

/-- Round trip for a well-formed, valid DatabaseDescription message. -/
theorem dd_roundtrip (dd : DatabaseDescription) (hwf : dd.WF)
    (hopt : Options.valid dd.Options = true)
    (hages : ∀ lh ∈ dd.LSAs, wholeSeconds16 lh.Age)
    (hflags : dd.Flags < 2 ^ 8) (hlen : dd.len < 2 ^ 16) :
    ∃ b, MarshalMessage (some (.databaseDescription dd)) = .ok b ∧
      ParseMessage b = .ok (.databaseDescription dd) := by
  obtain ⟨hdr, o, mtu, f, seq, ls⟩ := dd
  simp only [DatabaseDescription.WF] at hwf
  obtain ⟨hhdr, ho32, hmtu, hf16, hseq, hls⟩ := hwf
  have ho24 : o < 2 ^ 24 := (Options.valid_true_iff o ho32).mp (by simpa using hopt)
  have hf : f % 2 ^ 8 = f := Nat.mod_eq_of_lt (by simpa using hflags)
  have hm : MarshalMessage (some (.databaseDescription ⟨hdr, o, mtu, f, seq, ls⟩)) =
      .ok (Header.marshalBytes hdr databaseDescriptionType
        ((DatabaseDescription.len ⟨hdr, o, mtu, f, seq, ls⟩) % 2 ^ 16) ++
        (putUint32 o ++ putUint16 mtu ++ [0, f] ++ putUint32 seq ++ lsaHeadersBytes ls)) := by
    simp only [MarshalMessage, Message.marshalBytes, DatabaseDescription.marshalBytes, hopt,
      Bool.true_eq_false, not_true_eq_false, if_neg, not_false_eq_true, if_false, hf,
      List.append_assoc]
  refine ⟨_, hm, ?_⟩
  have hblen : (putUint32 o ++ putUint16 mtu ++ [0, f] ++ putUint32 seq ++
      lsaHeadersBytes ls).length = 12 + 20 * ls.length := by
    simp [putUint32, putUint16, lsaHeadersBytes_length]
    omega
  have hleneq : DatabaseDescription.len ⟨hdr, o, mtu, f, seq, ls⟩ =
      16 + (putUint32 o ++ putUint16 mtu ++ [0, f] ++ putUint32 seq ++
        lsaHeadersBytes ls).length := by
    rw [hblen]
    simp [DatabaseDescription.len, headerLen, ddLen, lsaHeaderLen]
    omega
  rw [hleneq] at hm ⊢
  have hlen16 : 16 + (putUint32 o ++ putUint16 mtu ++ [0, f] ++ putUint32 seq ++
      lsaHeadersBytes ls).length < 2 ^ 16 := by
    rw [← hleneq]
    exact hlen
  have hph := parseHeader_marshal hdr hhdr databaseDescriptionType _ hlen16
  unfold ParseMessage
  rw [hph]
  simp only [databaseDescriptionType, helloType, headerLen, Nat.reduceEqDiff, if_false,
    if_pos]
  rw [slice_append_header _ _ (headerBytes_length hdr 2 _)]
  suffices hsuf : DatabaseDescription.unmarshalBody hdr (putUint32 o ++ putUint16 mtu ++
      [0, f] ++ putUint32 seq ++ lsaHeadersBytes ls) = .ok ⟨hdr, o, mtu, f, seq, ls⟩ by
    rw [hsuf]
    rfl
  unfold DatabaseDescription.unmarshalBody
  rw [if_neg (by rw [hblen]; simp [ddLen]), if_neg (by rw [hblen]; simp [ddLen, lsaHeaderLen])]
  simp only [putUint32, putUint16, List.cons_append, List.nil_append]
  simp [slice, getUint32, getUint16, options, parseID, ddLen, and_mask24_eq_mod,
    parseLSAHeaders_marshal ls (fun lh hlh => ⟨hls lh hlh, hages lh hlh⟩)]
  omega


/-- Round trip for a well-formed LinkStateRequest message. -/
theorem lsr_roundtrip (lsr : LinkStateRequest) (hwf : lsr.WF)
    (hlen : lsr.len < 2 ^ 16) :
    ∃ b, MarshalMessage (some (.linkStateRequest lsr)) = .ok b ∧
      ParseMessage b = .ok (.linkStateRequest lsr) := by
  obtain ⟨hdr, ls⟩ := lsr
  simp only [LinkStateRequest.WF] at hwf
  obtain ⟨hhdr, hls⟩ := hwf
  have hm : MarshalMessage (some (.linkStateRequest ⟨hdr, ls⟩)) =
      .ok (Header.marshalBytes hdr linkStateRequestType
        ((LinkStateRequest.len ⟨hdr, ls⟩) % 2 ^ 16) ++ (ls.map lsrEntryBytes).flatten) := by
    simp only [MarshalMessage, Message.marshalBytes, LinkStateRequest.marshalBytes]
  refine ⟨_, hm, ?_⟩
  have hblen : ((ls.map lsrEntryBytes).flatten).length = 12 * ls.length :=
    lsrEntriesBytes_length ls
  have hleneq : LinkStateRequest.len ⟨hdr, ls⟩ =
      16 + ((ls.map lsrEntryBytes).flatten).length := by
    rw [hblen]
    simp [LinkStateRequest.len, headerLen, lsaLen]
  rw [hleneq] at hm ⊢
  have hlen16 : 16 + ((ls.map lsrEntryBytes).flatten).length < 2 ^ 16 := by
    rw [← hleneq]
    exact hlen
  have hph := parseHeader_marshal hdr hhdr linkStateRequestType _ hlen16
  unfold ParseMessage
  rw [hph]
  simp only [linkStateRequestType, helloType, databaseDescriptionType, headerLen,
    Nat.reduceEqDiff, if_false, if_pos]
  rw [slice_append_header _ _ (headerBytes_length hdr 3 _)]
  suffices hsuf : LinkStateRequest.unmarshalBody hdr ((ls.map lsrEntryBytes).flatten) =
      .ok ⟨hdr, ls⟩ by
    rw [hsuf]
    rfl
  unfold LinkStateRequest.unmarshalBody
  rw [if_neg (by rw [hblen]; simp [lsaLen])]
  rw [parseLSAs_marshal ls hls]

/-- Round trip for a well-formed LinkStateAcknowledgement message. -/
theorem lsack_roundtrip (la : LinkStateAcknowledgement) (hwf : la.WF)
    (hages : ∀ lh ∈ la.LSAs, wholeSeconds16 lh.Age) (hlen : la.len < 2 ^ 16) :
    ∃ b, MarshalMessage (some (.linkStateAcknowledgement la)) = .ok b ∧
      ParseMessage b = .ok (.linkStateAcknowledgement la) := by
  obtain ⟨hdr, ls⟩ := la
  simp only [LinkStateAcknowledgement.WF] at hwf
  obtain ⟨hhdr, hls⟩ := hwf
  have hm : MarshalMessage (some (.linkStateAcknowledgement ⟨hdr, ls⟩)) =
      .ok (Header.marshalBytes hdr linkStateAcknowledgementType
        ((LinkStateAcknowledgement.len ⟨hdr, ls⟩) % 2 ^ 16) ++ lsaHeadersBytes ls) := by
    simp only [MarshalMessage, Message.marshalBytes, LinkStateAcknowledgement.marshalBytes]
  refine ⟨_, hm, ?_⟩
  have hblen : (lsaHeadersBytes ls).length = 20 * ls.length := lsaHeadersBytes_length ls
  have hleneq : LinkStateAcknowledgement.len ⟨hdr, ls⟩ =
      16 + (lsaHeadersBytes ls).length := by
    rw [hblen]
    simp [LinkStateAcknowledgement.len, headerLen, lsaHeaderLen]
  rw [hleneq] at hm ⊢
  have hlen16 : 16 + (lsaHeadersBytes ls).length < 2 ^ 16 := by
    rw [← hleneq]
    exact hlen
  have hph := parseHeader_marshal hdr hhdr linkStateAcknowledgementType _ hlen16
  unfold ParseMessage
  rw [hph]
  simp only [linkStateAcknowledgementType, helloType, databaseDescriptionType,
    linkStateRequestType, headerLen, Nat.reduceEqDiff, if_false, if_pos]
  rw [slice_append_header _ _ (headerBytes_length hdr 5 _)]
  suffices hsuf : LinkStateAcknowledgement.unmarshalBody hdr (lsaHeadersBytes ls) =
      .ok ⟨hdr, ls⟩ by
    rw [hsuf]
    rfl
  unfold LinkStateAcknowledgement.unmarshalBody
  rw [if_neg (by rw [hblen]; simp [lsaHeaderLen])]
  rw [parseLSAHeaders_marshal ls (fun lh hlh => ⟨hls lh hlh, hages lh hlh⟩)]

/-- The length of a Go slice expression whose end is in range. -/
theorem slice_length (b : Bytes) (i j : Nat) (hj : j ≤ b.length) :
    (slice b i j).length = j - i := by
  simp [slice, List.length_take, List.length_drop]
  omega

/-- What a successful header parse guarantees about its results. -/
theorem parseHeader_ok_facts (b : Bytes) (hb : ByteOk b) (h : Header) (t plen : Nat)
    (hp : parseHeader b = .ok (h, t, plen)) :
    h.WF ∧ plen < 2 ^ 16 ∧ 16 ≤ plen ∧ plen ≤ b.length := by
  unfold parseHeader at hp
  split at hp
  · exact absurd hp (by simp)
  split at hp
  · exact absurd hp (by simp)
  dsimp only at hp
  split at hp
  · exact absurd hp (by simp)
  split at hp
  · exact absurd hp (by simp)
  rename_i h3 h4
  simp only [Except.ok.injEq, Prod.mk.injEq] at hp
  obtain ⟨hh, ht, hplen⟩ := hp
  subst hh
  subst ht
  subst hplen
  simp only [headerLen] at h3 h4
  refine ⟨⟨parseID_WF _ (byteOk_slice _ hb 4 8), parseID_WF _ (byteOk_slice _ hb 8 12),
    getUint16_lt _ (byteOk_slice _ hb 12 14), getD_lt_of_byteOk b hb 14⟩,
    getUint16_lt _ (byteOk_slice _ hb 2 4), by omega, by omega⟩

/-- Any message that ParseMessage accepts from a real byte buffer is well
formed and valid: its Options fit 24 bits, its durations are whole 16-bit
numbers of seconds, its DatabaseDescription flags fit 8 bits, and its
computed length equals the declared length, hence fits 16 bits. -/
theorem parse_ok_valid (b : Bytes) (hb : ByteOk b) (m : Message)
    (hp : ParseMessage b = .ok m) : m.WF ∧ m.Valid := by
  unfold ParseMessage at hp
  rcases hph : parseHeader b with e | trip
  · rw [hph] at hp
    exact absurd hp (by simp)
  obtain ⟨h, t, plen⟩ := trip
  rw [hph] at hp
  dsimp only at hp
  obtain ⟨hhwf, hplen16, hplen1, hplen2⟩ := parseHeader_ok_facts b hb h t plen hph
  have hbody : ByteOk (slice b headerLen plen) := byteOk_slice _ hb _ _
  have hblen : (slice b headerLen plen).length = plen - 16 := by
    rw [slice_length b headerLen plen hplen2]
    simp [headerLen]
  simp only [headerLen] at hbody hblen hp
  by_cases ht1 : t = helloType
  · rw [if_pos ht1] at hp
    unfold Hello.unmarshalBody at hp
    split at hp
    · exact absurd hp (by simp [Except.map])
    split at hp
    · exact absurd hp (by simp [Except.map])
    rename_i hc1 hc2
    simp only [Except.map, Except.ok.injEq] at hp
    subst hp
    rw [hblen] at hc1 hc2
    refine ⟨⟨hhwf, getUint32_lt _ (byteOk_slice _ hbody 0 4),
      getD_lt_of_byteOk _ hbody 4, ?_, parseID_WF _ (byteOk_slice _ hbody 12 16),
      parseID_WF _ (byteOk_slice _ hbody 16 20),
      parseIDs_WF _ (byteOk_drop _ hbody helloLen)⟩, ⟨?_, ?_, ?_, ?_⟩, trivial⟩
    · dsimp only
      unfold options
      rw [and_mask24_eq_mod]
      omega
    · dsimp only
      unfold options Options.valid
      rw [and_mask24_eq_mod]
      exact beq_iff_eq.mpr (and_hi8_eq_zero _ (Nat.mod_lt _ (by norm_num)))
    · refine ⟨by dsimp only; simp [uint16Seconds, Nat.mul_mod_left], ?_⟩
      dsimp only
      rw [uint16Seconds, Nat.mul_div_cancel _ (by norm_num [second])]
      exact getUint16_lt _ (byteOk_slice _ hbody 8 10)
    · refine ⟨by dsimp only; simp [uint16Seconds, Nat.mul_mod_left], ?_⟩
      dsimp only
      rw [uint16Seconds, Nat.mul_div_cancel _ (by norm_num [second])]
      exact getUint16_lt _ (byteOk_slice _ hbody 10 12)
    · dsimp only [Hello.len]
      simp only [headerLen, helloLen, parseIDs_length, List.length_drop, hblen]
      simp only [helloLen] at hc1
      omega
  rw [if_neg ht1] at hp
  by_cases ht2 : t = databaseDescriptionType
  · rw [if_pos ht2] at hp
    unfold DatabaseDescription.unmarshalBody at hp
    split at hp
    · exact absurd hp (by simp [Except.map])
    split at hp
    · exact absurd hp (by simp [Except.map])
    rename_i hc1 hc2
    simp only [Except.map, Except.ok.injEq] at hp
    subst hp
    rw [hblen] at hc1 hc2
    refine ⟨⟨hhwf, ?_, getUint16_lt _ (byteOk_slice _ hbody 4 6), ?_,
      getUint32_lt _ (byteOk_slice _ hbody 8 12),
      fun lh hlh => (parseLSAHeaders_WF _ (byteOk_drop _ hbody ddLen) lh hlh).1⟩,
      ⟨?_, fun lh hlh => (parseLSAHeaders_WF _ (byteOk_drop _ hbody ddLen) lh hlh).2, ?_⟩,
      ?_⟩
    · dsimp only
      unfold options
      rw [and_mask24_eq_mod]
      omega
    · dsimp only
      have := getD_lt_of_byteOk _ hbody 7
      omega
    · dsimp only
      unfold options Options.valid
      rw [and_mask24_eq_mod]
      exact beq_iff_eq.mpr (and_hi8_eq_zero _ (Nat.mod_lt _ (by norm_num)))
    · dsimp only [DatabaseDescription.len]
      simp only [headerLen, ddLen, lsaHeaderLen, parseLSAHeaders_length,
        List.length_drop, hblen]
      simp only [ddLen, lsaHeaderLen] at hc1 hc2
      omega
    · dsimp only
      exact getD_lt_of_byteOk _ hbody 7
  rw [if_neg ht2] at hp
  by_cases ht3 : t = linkStateRequestType
  · rw [if_pos ht3] at hp
    unfold LinkStateRequest.unmarshalBody at hp
    split at hp
    · exact absurd hp (by simp [Except.map])
    rename_i hc1
    simp only [Except.map, Except.ok.injEq] at hp
    subst hp
    rw [hblen] at hc1
    refine ⟨⟨hhwf, parseLSAs_WF _ hbody⟩, ?_, trivial⟩
    dsimp only [Message.ClaimValid, LinkStateRequest.len]
    simp only [headerLen, lsaLen, parseLSAs_length, hblen]
    simp only [lsaLen] at hc1
    omega
  rw [if_neg ht3] at hp
  by_cases ht4 : t = linkStateAcknowledgementType
  · rw [if_pos ht4] at hp
    unfold LinkStateAcknowledgement.unmarshalBody at hp
    split at hp
    · exact absurd hp (by simp [Except.map])
    rename_i hc1
    simp only [Except.map, Except.ok.injEq] at hp
    subst hp
    rw [hblen] at hc1
    refine ⟨⟨hhwf, fun lh hlh => (parseLSAHeaders_WF _ hbody lh hlh).1⟩,
      ⟨fun lh hlh => (parseLSAHeaders_WF _ hbody lh hlh).2, ?_⟩, trivial⟩
    dsimp only [LinkStateAcknowledgement.len]
    simp only [headerLen, lsaHeaderLen, parseLSAHeaders_length, hblen]
    simp only [lsaHeaderLen] at hc1
    omega
  rw [if_neg ht4] at hp
  exact absurd hp (by simp)


/-- Round trip at the Message level: marshaling a well-formed valid message
succeeds and parsing the output returns a structurally equal message. -/
theorem marshal_parse_of_valid (m : Message) (hwf : m.WF) (hv : m.Valid) :
    ∃ b, MarshalMessage (some m) = .ok b ∧ ParseMessage b = .ok m := by
  cases m with
  | hello h =>
    obtain ⟨⟨h1, h2, h3, h4⟩, -⟩ := hv
    exact hello_roundtrip h hwf h1 h2 h3 h4
  | databaseDescription dd =>
    obtain ⟨⟨h1, h2, h3⟩, h4⟩ := hv
    exact dd_roundtrip dd hwf h1 h2 h4 h3
  | linkStateRequest lsr =>
    exact lsr_roundtrip lsr hwf hv.1
  | linkStateAcknowledgement la =>
    obtain ⟨⟨h1, h2⟩, -⟩ := hv
    exact lsack_roundtrip la hwf h1 h2

/-! Claim theorems. -/

/-- C1 (counterexample): the claim as stated is false.  The stated validity
(Options confined to 24 bits, whole 16-bit-second durations, total length
below 2^16) does not ensure parse-of-marshal identity: a DatabaseDescription
whose Flags value is 256 (representable in the Go uint16 DDFlags type) meets
it, yet marshaling writes only the low byte of Flags, so parsing returns
Flags = 0 and the round trip changes the message. -/
theorem roundtrip_claim_counterexample :
    ¬ (∀ m : Message, m.WF → m.ClaimValid →
      ∃ b, MarshalMessage (some m) = .ok b ∧ ParseMessage b = .ok m) := by
  intro hclaim
  obtain ⟨b, hmb, hpb⟩ :=
    hclaim (.databaseDescription flagsOverflowDD) (by decide) (by decide)
  have hmc : MarshalMessage (some (.databaseDescription flagsOverflowDD)) =
      .ok flagsOverflowBytes := by decide
  have hb : b = flagsOverflowBytes := by
    have := hmb.symm.trans hmc
    exact Except.ok.inj this
  subst hb
  have hne : ParseMessage flagsOverflowBytes ≠
      .ok (.databaseDescription flagsOverflowDD) := by decide
  exact hne hpb

/-- C1 (amended): for every well-formed message of the four implemented
variants that is valid — Options confined to the low 24 bits, every duration
a whole number of seconds representable in 16 bits, the total wire length
fitting the packet length field, and additionally every DatabaseDescription
Flags value fitting the 8 bits stored for it — ParseMessage of MarshalMessage
succeeds and returns a structurally equal message. -/
theorem roundtrip_amended (m : Message) (hwf : m.WF) (hv : m.Valid) :
    ∃ b, MarshalMessage (some m) = .ok b ∧ ParseMessage b = .ok m :=
  marshal_parse_of_valid m hwf hv

/-- C1 witness: the concrete Hello scenario round-trips. -/
theorem roundtrip_amended_witness :
    (Message.hello sampleHello).WF ∧ (Message.hello sampleHello).Valid ∧
      ∃ b, MarshalMessage (some (.hello sampleHello)) = .ok b ∧
        ParseMessage b = .ok (.hello sampleHello) :=
  ⟨by decide, by decide, roundtrip_amended (.hello sampleHello) (by decide) (by decide)⟩

/-- C2: re-encoding is stable from the second encoding onward.  For every
real byte buffer b that ParseMessage accepts with message m1, marshaling m1
succeeds with bytes b2, parsing b2 succeeds with some m2, and marshaling m2
yields exactly b2 again. -/
theorem reparse_stable (b : Bytes) (hb : ByteOk b) (m1 : Message)
    (h1 : ParseMessage b = .ok m1) :
    ∃ b2, MarshalMessage (some m1) = .ok b2 ∧
      ∃ m2, ParseMessage b2 = .ok m2 ∧ MarshalMessage (some m2) = .ok b2 := by
  obtain ⟨hwf, hv⟩ := parse_ok_valid b hb m1 h1
  obtain ⟨b2, hm, hp⟩ := marshal_parse_of_valid m1 hwf hv
  exact ⟨b2, hm, m1, hp, hm⟩

/-- C2 witness: stability on the concrete Hello scenario bytes. -/
theorem reparse_stable_witness :
    ByteOk sampleHelloBytes ∧
      ∃ b2, MarshalMessage (some (.hello sampleHello)) = .ok b2 ∧
        ∃ m2, ParseMessage b2 = .ok m2 ∧ MarshalMessage (some m2) = .ok b2 :=
  ⟨by decide, reparse_stable sampleHelloBytes (by decide) (.hello sampleHello) (by decide)⟩

/-- C8: the divergence between LSAHandling and the U-bit.  The source masks
with 0xf000 (bits 12 through 15), so for the RouterLSA type 0x2001 — whose
U-bit (bit 15, 0x8000) is clear — LSAHandling returns true although the
claim (and the method doc comment, and RFC5340) say it returns the U-bit
value, i.e. false here.  FloodingScope at the same input does return the
S1/S2 bits as claimed. -/
theorem lsahandling_divergence :
    LSType.LSAHandling 0x2001 = true ∧ 0x2001 &&& 0x8000 = 0 ∧
      LSType.FloodingScope 0x2001 = 1 := by decide

/-- C3: characterization of header parsing.  Header parsing fails with the
parse-category error exactly when the buffer is shorter than 16 bytes, byte
0 is not 3, the declared big-endian length at bytes 2 and 3 is below 16, or
that length exceeds the buffer; otherwise it succeeds with the logical
Header, the packet type byte and the declared length, and ParseMessage
depends only on the header results and on bytes 16 up to the declared
length. -/
theorem parseHeader_spec (b : Bytes) :
    (parseHeader b = .error Err.errParse ↔
      b.length < 16 ∨ b.getD 0 0 ≠ 3 ∨ getUint16 (slice b 2 4) < 16 ∨
        b.length < getUint16 (slice b 2 4)) ∧
    (¬ (b.length < 16 ∨ b.getD 0 0 ≠ 3 ∨ getUint16 (slice b 2 4) < 16 ∨
        b.length < getUint16 (slice b 2 4)) →
      parseHeader b = .ok
        ({ RouterID := parseID (slice b 4 8), AreaID := parseID (slice b 8 12),
           Checksum := getUint16 (slice b 12 14), InstanceID := b.getD 14 0 },
         b.getD 1 0, getUint16 (slice b 2 4))) ∧
    (∀ b2 h t plen, parseHeader b = .ok (h, t, plen) →
      parseHeader b2 = .ok (h, t, plen) →
      slice b 16 plen = slice b2 16 plen → ParseMessage b = ParseMessage b2) := by
  refine ⟨?_, ?_, ?_⟩
  · unfold parseHeader
    simp only [headerLen, version]
    by_cases h1 : b.length < 16
    · rw [if_pos h1]
      exact ⟨fun _ => .inl h1, fun _ => rfl⟩
    · rw [if_neg h1]
      by_cases h2 : b.getD 0 0 ≠ 3
      · rw [if_pos h2]
        exact ⟨fun _ => .inr (.inl h2), fun _ => rfl⟩
      · rw [if_neg h2]
        by_cases h3 : getUint16 (slice b 2 4) < 16
        · rw [if_pos h3]
          exact ⟨fun _ => .inr (.inr (.inl h3)), fun _ => rfl⟩
        · rw [if_neg h3]
          by_cases h4 : b.length < getUint16 (slice b 2 4)
          · rw [if_pos h4]
            exact ⟨fun _ => .inr (.inr (.inr h4)), fun _ => rfl⟩
          · rw [if_neg h4]
            refine ⟨fun hcontra => absurd hcontra (by simp), fun hdisj => ?_⟩
            rcases hdisj with a | a | a | a
            · exact absurd a h1
            · exact absurd a h2
            · exact absurd a h3
            · exact absurd a h4
  · intro hcond
    push_neg at hcond
    obtain ⟨n1, n2, n3, n4⟩ := hcond
    unfold parseHeader
    simp only [headerLen, version]
    rw [if_neg (by omega), if_neg (by simp only [ne_eq, not_not]; exact n2)]
    rw [if_neg (by omega), if_neg (by omega)]
  · intro b2 h t plen hp hp2 hs
    unfold ParseMessage
    rw [hp, hp2]
    dsimp only
    rw [show slice b headerLen plen = slice b2 headerLen plen from by
      simpa [headerLen] using hs]

/-- C3 witness: the concrete Hello scenario buffer has a parseable header
with packet type 1 and declared length 44. -/
theorem parseHeader_spec_witness :
    parseHeader sampleHelloBytes = .ok (sampleHeader, 1, 44) :=
  ((parseHeader_spec sampleHelloBytes).2.1 (by decide)).trans (by decide)

/-- C4: body-level boundary checks of the four variants.  Hello fails on a
body shorter than 20 bytes or with a trailing region not a multiple of 4;
DatabaseDescription on a body shorter than 12 bytes or a trailing region
not a multiple of 20; LinkStateRequest on a length not a multiple of 12;
LinkStateAcknowledgement on a length not a multiple of 20; otherwise each
succeeds.  All failures carry the parse sentinel. -/
theorem unmarshal_boundaries (hdr : Header) (b : Bytes) :
    ((b.length < 20 ∨ b.length % 4 ≠ 0) →
      Hello.unmarshalBody hdr b = .error .errParse) ∧
    (¬ (b.length < 20 ∨ b.length % 4 ≠ 0) →
      ∃ m, Hello.unmarshalBody hdr b = .ok m) ∧
    ((b.length < 12 ∨ (b.length - 12) % 20 ≠ 0) →
      DatabaseDescription.unmarshalBody hdr b = .error .errParse) ∧
    (¬ (b.length < 12 ∨ (b.length - 12) % 20 ≠ 0) →
      ∃ m, DatabaseDescription.unmarshalBody hdr b = .ok m) ∧
    (b.length % 12 ≠ 0 → LinkStateRequest.unmarshalBody hdr b = .error .errParse) ∧
    (b.length % 12 = 0 → ∃ m, LinkStateRequest.unmarshalBody hdr b = .ok m) ∧
    (b.length % 20 ≠ 0 →
      LinkStateAcknowledgement.unmarshalBody hdr b = .error .errParse) ∧
    (b.length % 20 = 0 →
      ∃ m, LinkStateAcknowledgement.unmarshalBody hdr b = .ok m) := by
  refine ⟨?_, ?_, ?_, ?_, ?_, ?_, ?_, ?_⟩
  · intro hc
    unfold Hello.unmarshalBody
    simp only [helloLen]
    by_cases h1 : b.length < 20
    · rw [if_pos h1]
    · rcases hc with hc | hc
      · exact absurd hc h1
      · rw [if_neg h1, if_pos hc]
  · intro hc
    push_neg at hc
    unfold Hello.unmarshalBody
    simp only [helloLen]
    rw [if_neg (by omega), if_neg (by omega)]
    exact ⟨_, rfl⟩
  · intro hc
    unfold DatabaseDescription.unmarshalBody
    simp only [ddLen, lsaHeaderLen]
    by_cases h1 : b.length < 12
    · rw [if_pos h1]
    · rcases hc with hc | hc
      · exact absurd hc h1
      · rw [if_neg h1, if_pos hc]
  · intro hc
    push_neg at hc
    unfold DatabaseDescription.unmarshalBody
    simp only [ddLen, lsaHeaderLen]
    rw [if_neg (by omega), if_neg (by omega)]
    exact ⟨_, rfl⟩
  · intro hc
    unfold LinkStateRequest.unmarshalBody
    simp only [lsaLen]
    rw [if_pos hc]
  · intro hc
    unfold LinkStateRequest.unmarshalBody
    simp only [lsaLen]
    rw [if_neg (by omega)]
    exact ⟨_, rfl⟩
  · intro hc
    unfold LinkStateAcknowledgement.unmarshalBody
    simp only [lsaHeaderLen]
    rw [if_pos hc]
  · intro hc
    unfold LinkStateAcknowledgement.unmarshalBody
    simp only [lsaHeaderLen]
    rw [if_neg (by omega)]
    exact ⟨_, rfl⟩

/-- C4 witness: a 40-byte all-zero body is accepted as a Hello body and
rejected as a LinkStateRequest body. -/
theorem unmarshal_boundaries_witness :
    (∃ m, Hello.unmarshalBody sampleHeader (List.replicate 40 0) = .ok m) ∧
      LinkStateRequest.unmarshalBody sampleHeader (List.replicate 40 0) =
        .error .errParse :=
  ⟨(unmarshal_boundaries sampleHeader (List.replicate 40 0)).2.1 (by decide),
   (unmarshal_boundaries sampleHeader (List.replicate 40 0)).2.2.2.2.1 (by decide)⟩

/-- C5: when MarshalMessage succeeds, the buffer has exactly the computed
wire length: 16 + 20 + 4N for a Hello with N neighbor IDs, 16 + 12 + 20N
for a DatabaseDescription with N LSA headers, 16 + 12N for a
LinkStateRequest with N LSAs, and 16 + 20N for a LinkStateAcknowledgement
with N LSA headers. -/
theorem marshal_length (m : Message) (b : Bytes)
    (hm : MarshalMessage (some m) = .ok b) :
    b.length = match m with
      | .hello h => 16 + 20 + 4 * h.NeighborIDs.length
      | .databaseDescription dd => 16 + 12 + 20 * dd.LSAs.length
      | .linkStateRequest lsr => 16 + 12 * lsr.LSAs.length
      | .linkStateAcknowledgement la => 16 + 20 * la.LSAs.length := by
  cases m with
  | hello h =>
    unfold MarshalMessage Message.marshalBytes Hello.marshalBytes at hm
    dsimp only at hm ⊢
    split at hm
    · exact absurd hm (by simp)
    rw [Except.ok.injEq] at hm
    subst hm
    simp [Header.marshalBytes, putUint16, putUint32, putUint16Seconds, ID.bytes,
      idsBytes_length]
    omega
  | databaseDescription dd =>
    unfold MarshalMessage Message.marshalBytes DatabaseDescription.marshalBytes at hm
    dsimp only at hm ⊢
    split at hm
    · exact absurd hm (by simp)
    rw [Except.ok.injEq] at hm
    subst hm
    simp [Header.marshalBytes, putUint16, putUint32, ID.bytes, lsaHeadersBytes_length]
    omega
  | linkStateRequest lsr =>
    unfold MarshalMessage Message.marshalBytes LinkStateRequest.marshalBytes at hm
    dsimp only at hm ⊢
    rw [Except.ok.injEq] at hm
    subst hm
    rw [List.length_append, headerBytes_length, lsrEntriesBytes_length]
  | linkStateAcknowledgement la =>
    unfold MarshalMessage Message.marshalBytes LinkStateAcknowledgement.marshalBytes at hm
    dsimp only at hm ⊢
    rw [Except.ok.injEq] at hm
    subst hm
    rw [List.length_append, headerBytes_length, lsaHeadersBytes_length]

/-- C5 witness: the concrete Hello with two neighbor IDs marshals to
16 + 20 + 4 * 2 = 44 bytes. -/
theorem marshal_length_witness : sampleHelloBytes.length = 16 + 20 + 4 * 2 :=
  marshal_length (.hello sampleHello) sampleHelloBytes (by decide)

/-- C6: MarshalMessage fails exactly on a nil message or on a Hello or
DatabaseDescription whose Options value has a bit set above bit 23, and
every failure carries the marshal sentinel; every LinkStateRequest, every
LinkStateAcknowledgement, and every Hello or DatabaseDescription with
Options confined to 24 bits marshals successfully, so an invalid Options
value is never silently masked into an output buffer. -/
theorem marshal_error_iff (om : Option Message) :
    ((∃ e, MarshalMessage om = .error e) ↔
      om = none ∨
      (∃ h, om = some (.hello h) ∧ Options.valid h.Options = false) ∨
      (∃ dd, om = some (.databaseDescription dd) ∧ Options.valid dd.Options = false)) ∧
    (∀ e, MarshalMessage om = .error e → e = .errMarshal) := by
  cases om with
  | none =>
    constructor
    · exact ⟨fun _ => .inl rfl, fun _ => ⟨.errMarshal, rfl⟩⟩
    · intro e he
      exact ((Except.error.inj he)).symm
  | some m =>
    cases m with
    | hello h =>
      unfold MarshalMessage Message.marshalBytes Hello.marshalBytes
      dsimp only
      by_cases hv : Options.valid h.Options = true
      · rw [if_neg (by simp [hv])]
        refine ⟨⟨fun ⟨e, he⟩ => absurd he (by simp), ?_⟩, fun e he => absurd he (by simp)⟩
        rintro (hc | ⟨h2, hc, hvf⟩ | ⟨dd2, hc, hvf⟩)
        · exact absurd hc (by simp)
        · obtain rfl : h = h2 := by simpa using hc
          exact absurd hvf (by simp [hv])
        · exact absurd hc (by simp)
      · rw [if_pos hv]
        refine ⟨⟨fun _ => .inr (.inl ⟨h, rfl, by simpa using hv⟩),
          fun _ => ⟨.errMarshal, rfl⟩⟩, fun e he => (Except.error.inj he).symm⟩
    | databaseDescription dd =>
      unfold MarshalMessage Message.marshalBytes DatabaseDescription.marshalBytes
      dsimp only
      by_cases hv : Options.valid dd.Options = true
      · rw [if_neg (by simp [hv])]
        refine ⟨⟨fun ⟨e, he⟩ => absurd he (by simp), ?_⟩, fun e he => absurd he (by simp)⟩
        rintro (hc | ⟨h2, hc, hvf⟩ | ⟨dd2, hc, hvf⟩)
        · exact absurd hc (by simp)
        · exact absurd hc (by simp)
        · obtain rfl : dd = dd2 := by simpa using hc
          exact absurd hvf (by simp [hv])
      · rw [if_pos hv]
        refine ⟨⟨fun _ => .inr (.inr ⟨dd, rfl, by simpa using hv⟩),
          fun _ => ⟨.errMarshal, rfl⟩⟩, fun e he => (Except.error.inj he).symm⟩
    | linkStateRequest lsr =>
      unfold MarshalMessage Message.marshalBytes LinkStateRequest.marshalBytes
      dsimp only
      refine ⟨⟨fun ⟨e, he⟩ => absurd he (by simp), ?_⟩, fun e he => absurd he (by simp)⟩
      rintro (hc | ⟨h2, hc, _⟩ | ⟨dd2, hc, _⟩) <;> exact absurd hc (by simp)
    | linkStateAcknowledgement la =>
      unfold MarshalMessage Message.marshalBytes LinkStateAcknowledgement.marshalBytes
      dsimp only
      refine ⟨⟨fun ⟨e, he⟩ => absurd he (by simp), ?_⟩, fun e he => absurd he (by simp)⟩
      rintro (hc | ⟨h2, hc, _⟩ | ⟨dd2, hc, _⟩) <;> exact absurd hc (by simp)

/-- C6 witness: marshaling a Hello with Options bit 24 set fails. -/
theorem marshal_error_iff_witness :
    ∃ e, MarshalMessage (some (.hello invalidOptionsHello)) = .error e :=
  (marshal_error_iff (some (.hello invalidOptionsHello))).1.mpr
    (.inr (.inl ⟨invalidOptionsHello, rfl, by decide⟩))

/-- C7: a buffer whose header parses but whose packet type is none of 1, 2,
3, 5 produces the distinct not-implemented error, which is not the parse
sentinel that malformed input carries. -/
theorem parse_not_implemented (b : Bytes) (h : Header) (t plen : Nat)
    (hp : parseHeader b = .ok (h, t, plen))
    (h1 : t ≠ 1) (h2 : t ≠ 2) (h3 : t ≠ 3) (h5 : t ≠ 5) :
    ParseMessage b = .error (.notImplemented t) ∧
      ∀ t2, Err.notImplemented t2 ≠ Err.errParse := by
  constructor
  · unfold ParseMessage
    rw [hp]
    dsimp only
    rw [if_neg (by simpa [helloType] using h1),
      if_neg (by simpa [databaseDescriptionType] using h2),
      if_neg (by simpa [linkStateRequestType] using h3),
      if_neg (by simpa [linkStateAcknowledgementType] using h5)]
  · intro t2
    simp

/-- C7 witness: the concrete type-4 (Link State Update) buffer. -/
theorem parse_not_implemented_witness :
    ParseMessage lsUpdateBytes = .error (.notImplemented 4) ∧
      ∀ t2, Err.notImplemented t2 ≠ Err.errParse :=
  parse_not_implemented lsUpdateBytes sampleHeader 4 16 (by decide)
    (by decide) (by decide) (by decide) (by decide)

/-- Dropping exactly the first of two appended buffers. -/
theorem drop_append_len (x y : Bytes) (n : Nat) (hx : x.length = n) :
    (x ++ y).drop n = y := by
  subst hx
  exact List.drop_left x y

/-- C9 (counterexample): an LSA does not occupy 12 bytes on the wire; its
marshaled form is 10 bytes (2 type bytes plus two 4-byte identifiers). -/
theorem lsa_width_counterexample :
    (LSA.marshalBytes sampleLSA).length ≠ 12 ∧
      (LSA.marshalBytes sampleLSA).length = 10 := by decide

/-- C9 (amended): an LSA record occupies 10 bytes on the wire; LSA.marshal
packs it into a 10-byte region and parseLSA reads it back from those 10
bytes.  Inside a LinkStateRequest entry, 2 reserved zero bytes precede the
LSA, making each entry 12 bytes; inside an LSAHeader the LSA sits at
offsets 2 through 11, after the 2-byte Age field. -/
theorem lsa_wire_format (l : LSA) (hwf : l.WF) (lh : LSAHeader) (hdr : Header) :
    l.marshalBytes.length = 10 ∧
    parseLSA l.marshalBytes = l ∧
    (lsrEntryBytes l).length = 12 ∧
    slice lh.marshalBytes 2 12 = lh.LSA.marshalBytes ∧
    (∃ b, MarshalMessage (some (.linkStateRequest ⟨hdr, [l]⟩)) = .ok b ∧
      slice b 16 18 = [0, 0] ∧ slice b 18 28 = l.marshalBytes) := by
  refine ⟨lsaBytes_length l, parseLSA_marshal l hwf, lsrEntryBytes_length l, ?_, ?_⟩
  · unfold slice
    have h2 : lh.marshalBytes.drop 2 = lh.LSA.marshalBytes ++
        (putUint32 lh.SequenceNumber ++ putUint16 lh.Checksum ++ putUint16 lh.Length) := by
      simp [LSAHeader.marshalBytes, putUint16Seconds, putUint16, List.append_assoc]
    rw [h2, show (12 - 2 : Nat) = lh.LSA.marshalBytes.length from by rw [lsaBytes_length]]
    exact List.take_left _ _
  · have hb : MarshalMessage (some (.linkStateRequest ⟨hdr, [l]⟩)) =
        .ok (Header.marshalBytes hdr linkStateRequestType
          ((LinkStateRequest.len ⟨hdr, [l]⟩) % 2 ^ 16) ++ lsrEntryBytes l) := by
      simp [MarshalMessage, Message.marshalBytes, LinkStateRequest.marshalBytes]
    refine ⟨_, hb, ?_, ?_⟩
    · unfold slice
      rw [drop_append_len _ _ 16 (headerBytes_length ..)]
      simp [lsrEntryBytes]
    · unfold slice
      have h16 : (Header.marshalBytes hdr linkStateRequestType
          ((LinkStateRequest.len ⟨hdr, [l]⟩) % 2 ^ 16) ++ lsrEntryBytes l).drop 16 =
          lsrEntryBytes l := drop_append_len _ _ 16 (headerBytes_length ..)
      have hd : (Header.marshalBytes hdr linkStateRequestType
          ((LinkStateRequest.len ⟨hdr, [l]⟩) % 2 ^ 16) ++ lsrEntryBytes l).drop 18 =
          l.marshalBytes := by
        have hsteps := List.drop_drop 2 16 (Header.marshalBytes hdr linkStateRequestType
          ((LinkStateRequest.len ⟨hdr, [l]⟩) % 2 ^ 16) ++ lsrEntryBytes l)
        rw [show (2 + 16 : Nat) = 18 from rfl] at hsteps
        rw [← hsteps, h16]
        simp [lsrEntryBytes]
      rw [hd]
      exact List.take_of_length_le (by rw [lsaBytes_length])

/-- C9 witness: the amended format facts at a concrete RouterLSA. -/
theorem lsa_wire_format_witness :
    LSA.WF sampleLSA ∧
      ((LSA.marshalBytes sampleLSA).length = 10 ∧
        parseLSA (LSA.marshalBytes sampleLSA) = sampleLSA ∧
        (lsrEntryBytes sampleLSA).length = 12 ∧
        slice (LSAHeader.marshalBytes sampleLSAHeader) 2 12 =
          LSA.marshalBytes sampleLSAHeader.LSA ∧
        (∃ b, MarshalMessage (some (.linkStateRequest ⟨sampleHeader, [sampleLSA]⟩)) =
            .ok b ∧ slice b 16 18 = [0, 0] ∧
          slice b 18 28 = LSA.marshalBytes sampleLSA)) :=
  ⟨by decide, lsa_wire_format sampleLSA (by decide) sampleLSAHeader sampleHeader⟩

/-- Bytes 2 and 3 of any marshaled message hold the 16-bit length field. -/
theorem slice_2_4_header (h : Header) (t plen : Nat) (rest : Bytes) :
    slice (Header.marshalBytes h t plen ++ rest) 2 4 = putUint16 plen := by
  simp [Header.marshalBytes, putUint16, ID.bytes, slice, List.cons_append,
    List.nil_append]

/-- Reading back a stored 16-bit value. -/
theorem getUint16_putUint16 (v : Nat) (hv : v < 2 ^ 16) :
    getUint16 (putUint16 v) = v := by
  simp [getUint16, putUint16]
  omega

/-- C10: MarshalMessage never checks that the computed wire length fits the
16-bit length field.  For every message with valid Options it succeeds,
returns a buffer of the full computed length, and writes the computed
length reduced mod 2^16 into bytes 2 and 3 — so whenever the computed
length exceeds 65535, the declared length disagrees with the buffer
length. -/
theorem marshal_no_length_check (m : Message)
    (hopt : match m with
      | .hello h => Options.valid h.Options = true
      | .databaseDescription dd => Options.valid dd.Options = true
      | _ => True) :
    ∃ b, MarshalMessage (some m) = .ok b ∧ b.length = m.len ∧
      getUint16 (slice b 2 4) = m.len % 2 ^ 16 ∧
      (m.len > 65535 → getUint16 (slice b 2 4) ≠ b.length) := by
  cases m with
  | hello h =>
    have hv : Options.valid h.Options = true := hopt
    have hm : MarshalMessage (some (.hello h)) =
        .ok (Header.marshalBytes h.Header helloType (h.len % 2 ^ 16) ++
          (putUint32 h.InterfaceID ++ putUint32 (h.RouterPriority <<< 24 ||| h.Options) ++
            putUint16Seconds h.HelloInterval ++ putUint16Seconds h.RouterDeadInterval ++
            h.DesignatedRouterID.bytes ++ h.BackupDesignatedRouterID.bytes ++
            idsBytes h.NeighborIDs)) := by
      simp only [MarshalMessage, Message.marshalBytes, Hello.marshalBytes, hv,
        not_true_eq_false, if_false, List.append_assoc]
    have h1 : (Header.marshalBytes h.Header helloType (h.len % 2 ^ 16) ++
        (putUint32 h.InterfaceID ++ putUint32 (h.RouterPriority <<< 24 ||| h.Options) ++
          putUint16Seconds h.HelloInterval ++ putUint16Seconds h.RouterDeadInterval ++
          h.DesignatedRouterID.bytes ++ h.BackupDesignatedRouterID.bytes ++
          idsBytes h.NeighborIDs)).length = (Message.hello h).len := by
      dsimp only [Message.len]
      simp [Header.marshalBytes, putUint16, putUint32, putUint16Seconds, ID.bytes,
        idsBytes_length, Hello.len, headerLen, helloLen]
      omega
    have h2 : getUint16 (slice (Header.marshalBytes h.Header helloType (h.len % 2 ^ 16) ++
        (putUint32 h.InterfaceID ++ putUint32 (h.RouterPriority <<< 24 ||| h.Options) ++
          putUint16Seconds h.HelloInterval ++ putUint16Seconds h.RouterDeadInterval ++
          h.DesignatedRouterID.bytes ++ h.BackupDesignatedRouterID.bytes ++
          idsBytes h.NeighborIDs)) 2 4) = (Message.hello h).len % 2 ^ 16 := by
      rw [slice_2_4_header]
      exact getUint16_putUint16 _ (by omega)
    exact ⟨_, hm, h1, h2, fun hbig => by rw [h2, h1]; omega⟩
  | databaseDescription dd =>
    have hv : Options.valid dd.Options = true := hopt
    have hm : MarshalMessage (some (.databaseDescription dd)) =
        .ok (Header.marshalBytes dd.Header databaseDescriptionType (dd.len % 2 ^ 16) ++
          (putUint32 dd.Options ++ putUint16 dd.InterfaceMTU ++ [0, dd.Flags % 2 ^ 8] ++
            putUint32 dd.SequenceNumber ++ lsaHeadersBytes dd.LSAs)) := by
      simp only [MarshalMessage, Message.marshalBytes, DatabaseDescription.marshalBytes,
        hv, not_true_eq_false, if_false, List.append_assoc]
    have h1 : (Header.marshalBytes dd.Header databaseDescriptionType (dd.len % 2 ^ 16) ++
        (putUint32 dd.Options ++ putUint16 dd.InterfaceMTU ++ [0, dd.Flags % 2 ^ 8] ++
          putUint32 dd.SequenceNumber ++ lsaHeadersBytes dd.LSAs)).length =
        (Message.databaseDescription dd).len := by
      dsimp only [Message.len]
      simp [Header.marshalBytes, putUint16, putUint32, ID.bytes, lsaHeadersBytes_length,
        DatabaseDescription.len, headerLen, ddLen, lsaHeaderLen]
      omega
    have h2 : getUint16 (slice (Header.marshalBytes dd.Header databaseDescriptionType
        (dd.len % 2 ^ 16) ++ (putUint32 dd.Options ++ putUint16 dd.InterfaceMTU ++
          [0, dd.Flags % 2 ^ 8] ++ putUint32 dd.SequenceNumber ++
          lsaHeadersBytes dd.LSAs)) 2 4) = (Message.databaseDescription dd).len % 2 ^ 16 := by
      rw [slice_2_4_header]
      exact getUint16_putUint16 _ (by omega)
    exact ⟨_, hm, h1, h2, fun hbig => by rw [h2, h1]; omega⟩
  | linkStateRequest lsr =>
    have hm : MarshalMessage (some (.linkStateRequest lsr)) =
        .ok (Header.marshalBytes lsr.Header linkStateRequestType (lsr.len % 2 ^ 16) ++
          (lsr.LSAs.map lsrEntryBytes).flatten) := by
      simp only [MarshalMessage, Message.marshalBytes, LinkStateRequest.marshalBytes]
    have h1 : (Header.marshalBytes lsr.Header linkStateRequestType (lsr.len % 2 ^ 16) ++
        (lsr.LSAs.map lsrEntryBytes).flatten).length = (Message.linkStateRequest lsr).len := by
      dsimp only [Message.len]
      rw [List.length_append, headerBytes_length, lsrEntriesBytes_length]
      simp [LinkStateRequest.len, headerLen, lsaLen]
    have h2 : getUint16 (slice (Header.marshalBytes lsr.Header linkStateRequestType
        (lsr.len % 2 ^ 16) ++ (lsr.LSAs.map lsrEntryBytes).flatten) 2 4) =
        (Message.linkStateRequest lsr).len % 2 ^ 16 := by
      rw [slice_2_4_header]
      exact getUint16_putUint16 _ (by omega)
    exact ⟨_, hm, h1, h2, fun hbig => by rw [h2, h1]; omega⟩
  | linkStateAcknowledgement la =>
    have hm : MarshalMessage (some (.linkStateAcknowledgement la)) =
        .ok (Header.marshalBytes la.Header linkStateAcknowledgementType (la.len % 2 ^ 16) ++
          lsaHeadersBytes la.LSAs) := by
      simp only [MarshalMessage, Message.marshalBytes, LinkStateAcknowledgement.marshalBytes]
    have h1 : (Header.marshalBytes la.Header linkStateAcknowledgementType (la.len % 2 ^ 16) ++
        lsaHeadersBytes la.LSAs).length = (Message.linkStateAcknowledgement la).len := by
      dsimp only [Message.len]
      rw [List.length_append, headerBytes_length, lsaHeadersBytes_length]
      simp [LinkStateAcknowledgement.len, headerLen, lsaHeaderLen]
    have h2 : getUint16 (slice (Header.marshalBytes la.Header linkStateAcknowledgementType
        (la.len % 2 ^ 16) ++ lsaHeadersBytes la.LSAs) 2 4) =
        (Message.linkStateAcknowledgement la).len % 2 ^ 16 := by
      rw [slice_2_4_header]
      exact getUint16_putUint16 _ (by omega)
    exact ⟨_, hm, h1, h2, fun hbig => by rw [h2, h1]; omega⟩

/-- C10 witness: the concrete Hello (valid Options) marshals with its length
field holding its length mod 2^16. -/
theorem marshal_no_length_check_witness :
    Options.valid sampleHello.Options = true ∧
      ∃ b, MarshalMessage (some (.hello sampleHello)) = .ok b ∧
        b.length = (Message.hello sampleHello).len ∧
        getUint16 (slice b 2 4) = (Message.hello sampleHello).len % 2 ^ 16 ∧
        ((Message.hello sampleHello).len > 65535 →
          getUint16 (slice b 2 4) ≠ b.length) :=
  ⟨by decide, marshal_no_length_check (.hello sampleHello) (by decide)⟩

end Ospf3



